import Mathlib

/-!
Verification development for the statipy static site generator
(`src/statipy/__init__.py`).  The Python source is shallowly embedded:

* strings and text lines are Lean `String`s;
* Python metadata values (str / int / float / date / list / dict / None)
  are the inductive `Value`; Python floats are modelled by `Rat`, which is
  exact on the plain decimal literals the metadata parser ever sees
  (the model does not cover `inf`, `nan` or underscore digit separators);
* Python dicts are association lists with last-write-wins update,
  preserving insertion order like CPython dicts;
* filesystem paths are lists of path components;
* external collaborators (the Jinja2 template engine, the Markdown
  converter, `dateutil.parser.parse`) are injected as pure functions,
  matching the collaborator interfaces in the specification: a date parse
  failure or a template-engine miss is an `Option`/`Except` value;
* Python exceptions (`UnboundLocalError` from `get_meta`, fatal
  `sys.exit`, re-raised template errors) are `Except` errors that
  propagate and abort the modelled build.
-/

/-! ## Python string helpers -/

/-- Characters stripped by Python `str.strip()` and matched by `\s`. -/
def pyWs (c : Char) : Bool :=
  c = ' ' || c = '\t' || c = '\n' || c = '\x0d' || c = '\x0b' || c = '\x0c'

/-- Strip leading and trailing Python whitespace from a character list. -/
def stripChars (cs : List Char) : List Char :=
  ((cs.dropWhile pyWs).reverse.dropWhile pyWs).reverse

/-- Python `str.strip()`. -/
def pyStrip (s : String) : String := ⟨stripChars s.data⟩

/-- Python `str.lower()` on the ASCII letters the parser meets. -/
def pyLower (s : String) : String :=
  ⟨s.data.map (fun c => if 'A' ≤ c ∧ c ≤ 'Z' then Char.ofNat (c.toNat + 32) else c)⟩

/-- Python `s.startswith(pre)`. -/
def pyStartsWith (s pre : String) : Bool := pre.data.isPrefixOf s.data

/-- Python regex `^\s*$` on a line: every character is whitespace. -/
def blankLine (s : String) : Bool := s.data.all pyWs

/-- Python regex `^[^A-Za-z]` on a line: the line is nonempty and its
first character is not an ASCII letter. -/
def nonLetterStart (s : String) : Bool :=
  match s.data with
  | [] => false
  | c :: _ => !c.isAlpha

/-- The `get_meta` loop exit test (line 54 of the source): the line is
blank, or begins with a non-letter character, or contains no colon. -/
def stopLine (s : String) : Bool :=
  blankLine s || nonLetterStart s || !(s.data.contains ':')

/-- Python `l.split(':', 1)`: the text before the first colon and the
text after it (the colon itself dropped). -/
def splitColon1 (s : String) : String × String :=
  (⟨s.data.takeWhile (· ≠ ':')⟩, ⟨(s.data.dropWhile (· ≠ ':')).drop 1⟩)

/-- Python `re.split(r'\s*,\s*', val)` for a `val` that has already been
stripped: split at each comma and strip each piece (whitespace adjacent
to a comma is exactly the piece-boundary whitespace here, because `val`
carries no outer whitespace). -/
def splitAtCommas (cs : List Char) : List (List Char) :=
  match cs with
  | [] => [[]]
  | c :: r =>
    let rest := splitAtCommas r
    if c = ',' then [] :: rest
    else
      match rest with
      | p :: ps => (c :: p) :: ps
      | [] => [[c]]

def splitCommaStrip (s : String) : List String :=
  (splitAtCommas s.data).map (fun p => pyStrip ⟨p⟩)

/-! ## Python float literals as exact rationals -/

/-- Numeric value of a list of ASCII digits, most significant first. -/
def digitsToNat (cs : List Char) : Nat :=
  cs.foldl (fun a c => a * 10 + (c.toNat - '0'.toNat)) 0

/-- Parse the exponent part of a float literal (after `e`/`E`):
an optional sign followed by one or more digits and nothing else. -/
def parseExpPart (cs : List Char) : Option Int :=
  let (neg, ds) : Bool × List Char :=
    match cs with
    | '-' :: r => (true, r)
    | '+' :: r => (false, r)
    | r => (false, r)
  if !ds.isEmpty && ds.all Char.isDigit then
    some (if neg then -(digitsToNat ds : Int) else (digitsToNat ds : Int))
  else none

/-- The exact rational value of a parsed float literal:
`sgn * mantNum / 10 ^ fracDigits * 10 ^ e`. -/
def floatOfParts (sgn : Int) (mantNum fracDigits : Nat) (e : Int) : Rat :=
  if 0 ≤ e then mkRat (sgn * mantNum * (10 : Int) ^ e.toNat) (10 ^ fracDigits)
  else mkRat (sgn * mantNum) (10 ^ fracDigits * 10 ^ (-e).toNat)

/-- Combined mantissa of the integer digits `ip` and the fraction
digits at the front of `r`. -/
def mantNumOf (ip r : List Char) : Nat :=
  digitsToNat ip * 10 ^ (List.takeWhile Char.isDigit r).length +
    digitsToNat (List.takeWhile Char.isDigit r)

/-- Parse what follows the decimal point (`r`), given the integer
digits `ip` and the sign. -/
def parseFracTail (sgn : Int) (ip r : List Char) : Option Rat :=
  if ip.isEmpty && (List.takeWhile Char.isDigit r).isEmpty then none
  else
    match List.dropWhile Char.isDigit r with
    | [] => some (floatOfParts sgn (mantNumOf ip r) (List.takeWhile Char.isDigit r).length 0)
    | 'e' :: r2 =>
      (parseExpPart r2).map (floatOfParts sgn (mantNumOf ip r) (List.takeWhile Char.isDigit r).length)
    | 'E' :: r2 =>
      (parseExpPart r2).map (floatOfParts sgn (mantNumOf ip r) (List.takeWhile Char.isDigit r).length)
    | _ => none

/-- Parse a float literal after its sign: integer digits, optional
fraction, optional exponent. -/
def parseFloatTail (sgn : Int) (cs : List Char) : Option Rat :=
  match List.dropWhile Char.isDigit cs with
  | [] =>
    if (List.takeWhile Char.isDigit cs).isEmpty then none
    else some (floatOfParts sgn (digitsToNat (List.takeWhile Char.isDigit cs)) 0 0)
  | '.' :: r => parseFracTail sgn (List.takeWhile Char.isDigit cs) r
  | 'e' :: r2 =>
    if (List.takeWhile Char.isDigit cs).isEmpty then none
    else (parseExpPart r2).map (floatOfParts sgn (digitsToNat (List.takeWhile Char.isDigit cs)) 0)
  | 'E' :: r2 =>
    if (List.takeWhile Char.isDigit cs).isEmpty then none
    else (parseExpPart r2).map (floatOfParts sgn (digitsToNat (List.takeWhile Char.isDigit cs)) 0)
  | _ => none

/-- Parse the body of a Python float literal (sign, integer digits,
optional fraction, optional exponent), already stripped of
whitespace. -/
def parseFloatCore (cs0 : List Char) : Option Rat :=
  if cs0.head? = some '-' then parseFloatTail (-1) cs0.tail
  else if cs0.head? = some '+' then parseFloatTail 1 cs0.tail
  else parseFloatTail 1 cs0

/-- Python `float(s)` on plain decimal literals, as an exact rational:
`none` models a raised `ValueError`.  (`inf`, `nan` and underscore
separators are outside the model; the repository's metadata coercion is
only ever exercised on plain decimals in the claims.) -/
def parseFloat? (s : String) : Option Rat := parseFloatCore (pyStrip s).data

/-! ## Python values and dicts -/

/-- A Python value as stored in statipy metadata and render variables. -/
inductive Value where
  | str (s : String)
  | int (n : Int)
  | float (q : Rat)
  | date (d : Nat)
  | pynone
  | vlist (xs : List Value)
  | vdict (entries : List (String × Value))

/-- A Python dict with string keys, as an insertion-ordered association
list with at most one entry per key. -/
abbrev Dict : Type := List (String × Value)

/-- Python `d[k]` / `d.get(k)`: the value stored at `k`, if any. -/
def dget? : Dict → String → Option Value
  | [], _ => none
  | e :: t, k => if e.1 = k then some e.2 else dget? t k

/-- Python `d[k] = v`: replace the entry in place, else append. -/
def dset : Dict → String → Value → Dict
  | [], k, v => [(k, v)]
  | e :: t, k, v => if e.1 = k then (k, v) :: t else e :: dset t k v

/-- Python `d.update(other)`: fold `other`'s entries into `d`. -/
def dupdate (d other : Dict) : Dict :=
  List.foldl (fun acc e => dset acc e.1 e.2) d other

/-- Python truthiness of a `Value`. -/
def truthy : Value → Bool
  | .str s => !s.data.isEmpty
  | .int n => n != 0
  | .float q => q != 0
  | .date _ => true
  | .pynone => false
  | .vlist xs => !xs.isEmpty
  | .vdict xs => !xs.isEmpty

/-- Python `d.get(k, False)` used as a condition. -/
def truthyGet (d : Dict) (k : String) : Bool :=
  match dget? d k with
  | some v => truthy v
  | none => false

/-! ## The metadata parser `get_meta` (source lines 44-83) -/

/-- Errors raised out of `get_meta`: `unboundLocal` models the
`UnboundLocalError` on an empty line sequence (the loop variable `i` is
never bound before `lines[i+1:]`), `dateParse` the exception raised by
`dateutil.parser.parse` on an unparseable `date` value. -/
inductive MetaErr where
  | unboundLocal
  | dateParse
deriving DecidableEq, Repr

/-- Result of coercing one `key: value` pair. -/
inductive CoerceRes where
  | dropKey
  | dateErr
  | store (v : Value)

/-- Value coercion for one metadata line (source lines 59-81), applied
to the lower-cased stripped key and the stripped value.  `pd` is the
injected `dateutil.parser.parse` collaborator. -/
def coerceVal (pd : String → Option Nat) (key val : String) : CoerceRes :=
  if val = "None" then .dropKey
  else if key = "date" then
    match pd val with
    | some d => .store (.date d)
    | none => .dateErr
  else if key.data.getLast? = some 's' && val.data.contains ',' then
    .store (.vlist ((splitCommaStrip val).map .str))
  else
    match parseFloat? val with
    | some q => .store (if q.den = 1 then .int q.num else .float q)
    | none => .store (.str (pyStrip val))

/-- The `for i, l in enumerate(lines)` loop of `get_meta`: on the first
stop line it breaks and returns `lines[i+1:]` (the stop line itself is
dropped); if the loop runs off the end, `lines[i+1:]` is empty. -/
def getMetaLoop (pd : String → Option Nat) (meta : Dict) :
    List String → Except MetaErr (Dict × List String)
  | [] => .ok (meta, [])
  | l :: rest =>
    if stopLine l then .ok (meta, rest)
    else
      let kv := splitColon1 l
      let key := pyStrip (pyLower kv.1)
      let val := pyStrip kv.2
      match coerceVal pd key val with
      | .dropKey => getMetaLoop pd meta rest
      | .dateErr => .error .dateParse
      | .store v => getMetaLoop pd (dset meta key v) rest

/-- `get_meta(lines)` (source lines 44-83).  On an empty input the loop
body never runs, `i` is unbound, and evaluating `lines[i+1:]` raises
`UnboundLocalError`. -/
def get_meta (pd : String → Option Nat) (lines : List String) :
    Except MetaErr (Dict × List String) :=
  match lines with
  | [] => .error .unboundLocal
  | _ => getMetaLoop pd [] lines

/-- Number of leading lines of the input that pass the metadata test;
the first stop line, when one exists, sits at this index. -/
def metaPrefixLen (lines : List String) : Nat :=
  (lines.takeWhile (fun l => !stopLine l)).length

/-! ## The template resolver `search_parents` (source lines 25-40) -/

/-- A filesystem path as its list of components (`[]` is the root or
the reference directory; ancestors are obtained by dropping the last
component, mirroring `abspath(normpath(join(path, pardir)))`). -/
abbrev FPath : Type := List String

/-- Outcome of `search_parents`: the found path, `None`, or the
`NameError` raised when the filename carries a path separator. -/
inductive SearchResult where
  | found (p : FPath)
  | notFound
  | nameError
deriving DecidableEq, Repr

/-- `search_parents(path, filename, stop)` over a filesystem modelled as
the list `fs` of existing paths.  The boundary test precedes everything
(the boundary directory itself is never examined); joining the filename
onto the current directory appends a component; the parent is the path
with its last component dropped, and reaching the parent fixpoint (the
filesystem root) yields `None`. -/
def search_parents (fs : List FPath) (path : FPath) (filename : String) (stop : FPath) :
    SearchResult :=
  if path = stop then .notFound
  else if filename.data.contains '/' then .nameError
  else if (path ++ [filename]) ∈ fs then .found (path ++ [filename])
  else if h : path.dropLast = path then .notFound
  else search_parents fs path.dropLast filename stop
termination_by path.length
decreasing_by
  have hne : path ≠ [] := by
    intro hnil
    simp [hnil] at h
  have hpos : 0 < path.length := List.length_pos.mpr hne
  simp [List.length_dropLast]
  omega

/-- The directories `search_parents` examines, in order: the start
directory and its successive parents, stopping before the boundary
directory and at the parent fixpoint. -/
def ancestorChain (stop : FPath) (path : FPath) : List FPath :=
  if path = stop then []
  else if h : path.dropLast = path then [path]
  else path :: ancestorChain stop path.dropLast
termination_by path.length
decreasing_by
  have hne : path ≠ [] := by
    intro hnil
    simp [hnil] at h
  have hpos : 0 < path.length := List.length_pos.mpr hne
  simp [List.length_dropLast]
  omega

/-! ## Collaborators, options, and the renderer (source lines 380-471) -/

/-- The external collaborators, as the pure interfaces the specification
assigns them: `dateutil.parser.parse` (raising = `none`), the Markdown
converter, and the Jinja2 string renderer (raising = `.error`). -/
structure Collab where
  parseDate : String → Option Nat
  convertMd : String → String
  renderTemplate : String → Dict → Except Unit String

/-- The recognised configuration options that the modelled core reads
(callbacks, filters, tests and extensions are external hooks outside the
modelled surface). -/
structure Options where
  content_dir : String
  output_dir : String
  default_template : String
  root_subdir : Option FPath
  jinja_markdown : Bool
  date_from_filename : Bool
  skip_dirs : List String

/-- The module-level `_default_vars`. -/
def default_vars : Dict := [("DEFAULT_LANG", Value.str "en")]

/-- Fatal outcomes of rendering a document: the `UnboundLocalError`
escaping `get_meta`, a `date` parse failure, a failure of the embedded
Jinja pre-pass, the `sys.exit(-1)` on a missing explicitly requested
template, a template render failure, and fuel exhaustion standing in
for the unbounded `while True` loop never terminating. -/
inductive RenderErr where
  | metaEmptyLines
  | dateParse
  | mdJinja
  | noExplicitTemplate
  | templateRender
  | nonTermination
deriving DecidableEq, Repr

/-- `os.path.splitext`: split a name at its last dot, except that a run
of leading dots never starts an extension. -/
def pySplitext (s : String) : String × String :=
  let lead := s.data.takeWhile (· = '.')
  let rest := s.data.dropWhile (· = '.')
  let r := rest.reverse
  let after := r.takeWhile (· ≠ '.')
  if after.length = rest.length then (s, "")
  else (⟨lead ++ (r.drop (after.length + 1)).reverse⟩, ⟨'.' :: after.reverse⟩)

/-- Python `str(value)`.  Faithful on strings and integers, which are
the only cases the repository ever feeds it; the remaining cases stand
in for the CPython `repr`-based text. -/
def pyStr : Value → String
  | .str s => s
  | .int n => toString n
  | .float q => toString q
  | .date d => toString d
  | .pynone => "None"
  | .vlist _ => "[...]"
  | .vdict _ => "\x7b...\x7d"

/-- Does the tail of a candidate marker start with a nonempty run of
non-`}` characters followed by `}}`?  (The body of `{{[^}]+}}` after its
opening braces.) -/
def markerBody (cs : List Char) : Bool :=
  !(cs.takeWhile (· ≠ '\x7d')).isEmpty &&
    (match cs.dropWhile (· ≠ '\x7d') with
     | '\x7d' :: '\x7d' :: _ => true
     | _ => false)

/-- `re.search('{{[^}]+}}', s)` as existence of a match starting at
some position: two opening braces followed by a marker body. -/
def hasMarker : List Char → Bool
  | [] => false
  | c :: rest =>
    (c = '\x7b' &&
      (match rest with
       | c2 :: rest2 => c2 = '\x7b' && markerBody rest2
       | [] => false)) ||
    hasMarker rest

/-- The residual-template-expression test of the re-render loop
(source line 467). -/
def containsMarker (s : String) : Bool := hasMarker s.data

/-- The `while True` re-render loop (source lines 461-471), instrumented
with the number of render passes performed.  Each pass renders the
current template source with `page = rendervars`, stores the output into
`content`, and, when the output still contains `{{...}}` markers, loops
with the output as the new template source.  Fuel exhaustion models the
unbounded loop failing to terminate. -/
def renderLoop (rt : String → Dict → Except Unit String) :
    Nat → String → Dict → Except RenderErr (Dict × Nat)
  | 0, _, _ => .error .nonTermination
  | fuel + 1, src, rv =>
    match rt src rv with
    | .error _ => .error .templateRender
    | .ok out =>
      let rv2 := dset rv "content" (.str out)
      if containsMarker out then
        match renderLoop rt fuel out rv2 with
        | .ok rn => .ok (rn.1, rn.2 + 1)
        | .error e => .error e
      else .ok (rv2, 1)

/-- Source lines 392-398: when the metadata has no `date` key and the
`date_from_filename` option is on, try to parse the filename stem as a
date; failure is silently ignored. -/
def effectiveMeta (c : Collab) (o : Options) (path : String) (meta0 : Dict) : Dict :=
  if (dget? meta0 "date").isNone && o.date_from_filename then
    match c.parseDate (pySplitext path).1 with
    | some d => dset meta0 "date" (.date d)
    | none => meta0
  else meta0

/-- Source lines 400-405: the merged render variables — global template
variables, then aggregation extravars, then document metadata (later
updates win), then the derived `filename` and `htmlfile` keys. -/
def baseVars (templ_vars extravars meta : Dict) (path : String) : Dict :=
  dset (dset (dupdate (dupdate templ_vars extravars) meta)
      "filename" (.str path))
    "htmlfile" (.str ((pySplitext path).1 ++ ".html"))

/-- Source lines 434-437: the template name — the `template` render
variable if present, else the configured default, with the `.jinja`
suffix appended when the name has no extension. -/
def templateFileName (o : Options) (rv : Dict) : String :=
  let t := pyStr ((dget? rv "template").getD (.str o.default_template))
  if (pySplitext t).2 = "" then t ++ ".jinja" else t

/-- `Statipy.render` (source lines 380-471).  `getTemplate` abstracts
`environment.get_template`: `none` is the `TemplateNotFound` signal,
`some src` the loaded template source.  The returned dict is the final
`rendervars`. -/
def render (c : Collab) (o : Options) (getTemplate : String → Option String)
    (templ_vars extravars : Dict) (path : String) (lines : List String)
    (fuel : Nat) : Except RenderErr Dict :=
  match get_meta c.parseDate lines with
  | .error .unboundLocal => .error .metaEmptyLines
  | .error .dateParse => .error .dateParse
  | .ok md =>
    let meta := effectiveMeta c o path md.1
    let rv := baseVars templ_vars extravars meta path
    if truthyGet rv "skip" || meta.isEmpty then .ok (dset rv "content" .pynone)
    else
      let md0 := String.join md.2
      match (if o.jinja_markdown then c.renderTemplate md0 rv else .ok md0) with
      | .error _ => .error .mdJinja
      | .ok mdtext =>
        let rv2 := dset rv "content" (.str (c.convertMd mdtext))
        match getTemplate (templateFileName o rv2) with
        | none =>
          if (dget? rv2 "template").isNone then .ok rv2
          else .error .noExplicitTemplate
        | some src => (renderLoop c.renderTemplate fuel src rv2).map (·.1)

/-! ## Content tree, output tree, and the walker (source lines 199-378) -/

/-- A source file: name with extension, content as lines, and
modification time. -/
structure CFile where
  name : String
  lines : List String
  mtime : Nat

/-- A directory of the content tree. -/
inductive CTree where
  | node (dname : String) (subdirs : List CTree) (files : List CFile)

/-- Name of a content directory. -/
def CTree.name : CTree → String
  | .node n _ _ => n

/-- The output directory's state: files (path, content, mtime) and the
directories that exist under the output root (the root itself is
implicit). -/
structure OutFS where
  files : List (FPath × String × Nat)
  dirs : List FPath

/-- Association-list lookup for output files. -/
def fsGet? : List (FPath × String × Nat) → FPath → Option (String × Nat)
  | [], _ => none
  | e :: t, p => if e.1 = p then some e.2 else fsGet? t p

/-- Association-list store for output files. -/
def fsSet : List (FPath × String × Nat) → FPath → String × Nat → List (FPath × String × Nat)
  | [], p, cm => [(p, cm)]
  | e :: t, p, cm => if e.1 = p then (p, cm) :: t else e :: fsSet t p cm

/-- Look up an output file. -/
def outGet? (o : OutFS) (p : FPath) : Option (String × Nat) :=
  fsGet? o.files p

/-- The chain of directories `os.makedirs` creates for a directory
path: every nonempty prefix. -/
def dirChain (d : FPath) : List FPath :=
  (List.range d.length).map (fun k => d.take (k + 1))

/-- `os.makedirs(d)` with the already-exists error swallowed. -/
def mkdirs (o : OutFS) (d : FPath) : OutFS :=
  { o with dirs := o.dirs ++ (dirChain d).filter (fun q => !o.dirs.contains q) }

/-- Write or overwrite an output file at the current time, creating its
parent directories (`Statipy.write`, source lines 474-488, and
`shutil.copy`, which does not preserve the source mtime). -/
def outWrite (o : OutFS) (p : FPath) (content : String) (now : Nat) : OutFS :=
  let o2 := mkdirs o p.dropLast
  { o2 with files := fsSet o2.files p (content, now) }

/-- `os.unlink`. -/
def outUnlink (o : OutFS) (p : FPath) : OutFS :=
  { o with files := o.files.filter (fun e => !(e.1 == p)) }

/-- `os.rmdir`. -/
def outRmdir (o : OutFS) (p : FPath) : OutFS :=
  { o with dirs := o.dirs.filter (fun d => !(d == p)) }

/-- `len(os.listdir(p))` for a directory of the output tree: its files
plus its immediate subdirectories. -/
def listdirCount (o : OutFS) (p : FPath) : Nat :=
  (o.files.filter (fun e => e.1.dropLast == p)).length +
    (o.dirs.filter (fun d => !d.isEmpty && d.dropLast == p)).length

/-- Walker state: the aggregation table, the destination set snapshot,
the output tree, the log of paths written this run, and the process
working directory. -/
structure WalkSt where
  extravars : List (FPath × Dict)
  destfiles : List FPath
  output : OutFS
  writes : List FPath
  cwd : FPath

/-- `extravars.get(root, {})` over the defaultdict. -/
def evGet : List (FPath × Dict) → FPath → Dict
  | [], _ => []
  | e :: t, p => if e.1 = p then e.2 else evGet t p

/-- Store a directory's entry in the aggregation table. -/
def evSet : List (FPath × Dict) → FPath → Dict → List (FPath × Dict)
  | [], p, d => [(p, d)]
  | e :: t, p, d => if e.1 = p then (p, d) :: t else e :: evSet t p d

/-- `extravars[parent][group].append(meta)`; the group list was
initialised to `[]` when the aggregation directory was entered, so the
fallback branch is unreachable in a walk. -/
def evAppend (ev : List (FPath × Dict)) (parent : FPath) (group : String) (meta : Dict) :
    List (FPath × Dict) :=
  let cur := evGet ev parent
  let lst :=
    match dget? cur group with
    | some (.vlist xs) => xs ++ [Value.vdict meta]
    | _ => [Value.vdict meta]
  evSet ev parent (dset cur group (.vlist lst))

/-- Build-wide parameters: collaborators, options, the per-directory
template resolver (abstracting the `jinja2.Environment` with its
`ParentLoader`), the global template variables, render fuel, and the
clock value stamped on files written this run. -/
structure Params where
  collab : Collab
  opts : Options
  resolver : FPath → String → Option String
  templ_vars : Dict
  fuel : Nat
  now : Nat

/-- A walk either finishes with a state or aborts with the propagated
exception and the state at the moment of the raise. -/
abbrev WalkRes := Except (RenderErr × WalkSt) WalkSt

/-- Length of the common prefix of two component paths. -/
def commonPrefixLen : FPath → FPath → Nat
  | a :: as, b :: bs => if a = b then commonPrefixLen as bs + 1 else 0
  | _, _ => 0

/-- `os.path.relpath` on component paths. -/
def relpathC (p base : FPath) : FPath :=
  let k := commonPrefixLen p base
  List.replicate (base.length - k) ".." ++ p.drop k

/-- Join path components back into the string form `os.path.relpath`
returns (`.` for the empty relative path). -/
def joinPathStr (p : FPath) : String :=
  match p with
  | [] => "."
  | c :: rest => rest.foldl (fun acc d => acc ++ "/" ++ d) c

/-- Source lines 262-265: the `roots` chain of ancestor relative paths,
starting from the string split of `rootbase` (which is `"."` for the
content root itself). -/
def rootsStrings (rel : FPath) : List String :=
  let parts := if rel.isEmpty then ["."] else rel
  (parts.foldl
    (fun (acc : List String × String) d =>
      let nxt := if acc.2 = "" then d else acc.2 ++ "/" ++ d
      (acc.1 ++ [nxt], nxt))
    ([], "")).1

/-- Source lines 288-298: the destination root of a file — inside an
aggregation directory the parent plus the unprefixed group name,
otherwise the directory itself, joined with the extensionless name,
taken relative to the content dir, and redirected to the site root when
it falls under the `root_subdir` option. -/
def destrootFor (o : Options) (root parent : FPath) (group : String) (inSub : Bool)
    (rname : String) : FPath :=
  let base := (if inSub then parent ++ [group] else root) ++ [rname]
  let d0 := relpathC base [o.content_dir]
  match o.root_subdir with
  | some rs =>
    if !rs.isEmpty && commonPrefixLen d0 rs = rs.length then d0.drop rs.length else d0
  | none => d0

/-- Source line 302: `destfile = destroot + ext` appends the extension
text to the final component of the destination root. -/
def destfileOf (destroot : FPath) (ext2 : String) : FPath :=
  match destroot.reverse with
  | [] => ["." ++ ext2]
  | lastc :: revinit => revinit.reverse ++ [lastc ++ ext2]

/-- Document handling (source lines 323-344): switch the working
directory to the document's directory, render, and restore the
directory only on the success path (an exception propagates with the
directory still switched); append to the aggregation list inside `_`
directories, otherwise write truthy content to the destination. -/
def processMd (P : Params) (root : FPath) (inSub : Bool) (group : String) (parent : FPath)
    (f : CFile) (dfile : FPath) (st : WalkSt) : WalkRes :=
  let here := st.cwd
  let st2 := { st with cwd := root }
  match render P.collab P.opts (P.resolver root) P.templ_vars (evGet st2.extravars root)
      f.name f.lines P.fuel with
  | .error e => .error (e, st2)
  | .ok meta =>
    let st3 := { st2 with cwd := here }
    if inSub then
      .ok { st3 with extravars := evAppend st3.extravars parent group meta }
    else if truthy ((dget? meta "content").getD .pynone) then
      .ok { st3 with
            destfiles := st3.destfiles.erase dfile,
            output := outWrite st3.output dfile (pyStr ((dget? meta "content").getD .pynone)) P.now,
            writes := st3.writes ++ [dfile] }
    else .ok st3

/-- Copy handling (source lines 346-364): the second staleness check,
then the byte copy. -/
def processCopy (P : Params) (f : CFile) (dfile : FPath) (st : WalkSt) : WalkRes :=
  if (match outGet? st.output dfile with
      | some cm => decide (f.mtime ≤ cm.2)
      | none => false) then .ok st
  else
    .ok { st with
          output := outWrite st.output dfile (String.join f.lines) P.now,
          writes := st.writes ++ [dfile] }

/-- Per-file walker step (source lines 279-364): skip hidden and
template files; compute and claim the destination; apply the first
staleness check; then render documents or copy other files. -/
def processFile (P : Params) (root : FPath) (dirNames : List String) (inSub : Bool)
    (group : String) (parent : FPath) (f : CFile) (st : WalkSt) : WalkRes :=
  let se := pySplitext f.name
  let ext := se.2
  if pyStartsWith f.name "." || ext = ".jinja" then .ok st
  else
    let dfile := destfileOf (destrootFor P.opts root parent group inSub se.1)
      (if ext = ".md" then ".html" else ext)
    let st1 := { st with destfiles := st.destfiles.erase dfile }
    let stale1 :=
      match outGet? st1.output dfile with
      | some cm => !dirNames.any (fun dn => pyStartsWith dn "_") && decide (f.mtime ≤ cm.2)
      | none => false
    if stale1 then .ok st1
    else if ext = ".md" then processMd P root inSub group parent f dfile st1
    else processCopy P f dfile st1

/-- Fold the per-file step over a directory's files, propagating an
abort. -/
def processFiles (P : Params) (root : FPath) (dirNames : List String) (inSub : Bool)
    (group : String) (parent : FPath) : List CFile → WalkSt → WalkRes
  | [], st => .ok st
  | f :: fs, st =>
    match processFile P root dirNames inSub group parent f st with
    | .error e => .error e
    | .ok st2 => processFiles P root dirNames inSub group parent fs st2

/-- Per-directory walker step (source lines 235-276 plus the file
loop): skip-dir test on the relative path string, `roots` registration,
aggregation-group initialisation, then the files. -/
def processDir (P : Params) (root : FPath) (dirNames : List String) (files : List CFile)
    (st : WalkSt) : WalkRes :=
  let rootbase := relpathC root [P.opts.content_dir]
  if P.opts.skip_dirs.any (fun sd => pyStartsWith (joinPathStr rootbase) sd) then .ok st
  else
    let rbase := (root.getLast?).getD ""
    let parent := root.dropLast
    let st1 := { st with
      extravars := evSet st.extravars root
        (dset (evGet st.extravars root) "roots" (.vlist ((rootsStrings rootbase).map .str))) }
    let inSub := pyStartsWith rbase "_"
    let group := if inSub then ⟨rbase.data.drop 1⟩ else rbase
    let st2 :=
      if inSub then
        { st1 with extravars := evSet st1.extravars parent (dset (evGet st1.extravars parent) group (.vlist [])) }
      else st1
    processFiles P root dirNames inSub group parent files st2

mutual

/-- Post-order traversal of the content tree (`os.walk` with
`topdown=False`): all subdirectories first, then the directory
itself. -/
def processTree (P : Params) (pfx : FPath) (t : CTree) (st : WalkSt) : WalkRes :=
  match t with
  | .node nm subs files =>
    match processSubs P (pfx ++ [nm]) subs st with
    | .error e => .error e
    | .ok st2 => processDir P (pfx ++ [nm]) (subs.map CTree.name) files st2

/-- Traverse a list of sibling subtrees in listing order. -/
def processSubs (P : Params) (root : FPath) : List CTree → WalkSt → WalkRes
  | [], st => .ok st
  | t :: ts, st =>
    match processTree P root t st with
    | .error e => .error e
    | .ok st2 => processSubs P root ts st2

end

/-- One step of the orphan-removal loop (source lines 369-378): delete
the file, then remove its immediate parent directory when that parent
is now empty. -/
def reconStep (o : OutFS) (f : FPath) : OutFS :=
  let o2 := outUnlink o f
  if listdirCount o2 f.dropLast = 0 then outRmdir o2 f.dropLast else o2

/-- The post-walk reconciliation: delete every destination path still
in the set, pruning emptied immediate parents as it goes. -/
def reconcile (destfiles : List FPath) (o : OutFS) : OutFS :=
  destfiles.foldl reconStep o

/-- `generate_site` (source lines 199-202): snapshot the output tree
into the destination set, walk the content tree, then reconcile. -/
def generate_site (P : Params) (tree : CTree) (out0 : OutFS) (cwd0 : FPath) : WalkRes :=
  match processTree P [] tree
      { extravars := [], destfiles := out0.files.map (·.1), output := out0,
        writes := [], cwd := cwd0 } with
  | .error e => .error e
  | .ok st => .ok { st with output := reconcile st.destfiles st.output }

/-! ## Specification-side helpers and concrete instances -/

/-- The destination paths one file claims during the walk (none for
hidden or template files). -/
def fileClaims (o : Options) (root parent : FPath) (inSub : Bool) (group : String)
    (f : CFile) : List FPath :=
  let se := pySplitext f.name
  if pyStartsWith f.name "." || se.2 = ".jinja" then []
  else [destfileOf (destrootFor o root parent group inSub se.1)
          (if se.2 = ".md" then ".html" else se.2)]

/-- The destinations claimed while one directory is processed. -/
def dirClaims (o : Options) (root : FPath) (files : List CFile) : List FPath :=
  if o.skip_dirs.any (fun sd => pyStartsWith (joinPathStr (relpathC root [o.content_dir])) sd) then []
  else
    let rbase := (root.getLast?).getD ""
    let inSub := pyStartsWith rbase "_"
    let group := if inSub then ⟨rbase.data.drop 1⟩ else rbase
    (files.map (fileClaims o root root.dropLast inSub group)).flatten

mutual

/-- All destination paths claimed during a walk of the tree,
independent of walk state, staleness, or render outcomes. -/
def treeClaims (o : Options) (pfx : FPath) (t : CTree) : List FPath :=
  match t with
  | .node nm subs files =>
    subsClaims o (pfx ++ [nm]) subs ++ dirClaims o (pfx ++ [nm]) files

/-- Claims of a list of sibling subtrees. -/
def subsClaims (o : Options) (root : FPath) : List CTree → List FPath
  | [] => []
  | t :: ts => treeClaims o root t ++ subsClaims o root ts

end

mutual

/-- No directory in the tree (the root included) is an aggregation
directory. -/
def CTree.noAgg : CTree → Bool
  | .node nm subs _ => !pyStartsWith nm "_" && CTree.noAggList subs

/-- `noAgg` over sibling lists. -/
def CTree.noAggList : List CTree → Bool
  | [] => true
  | t :: ts => t.noAgg && CTree.noAggList ts

end

mutual

/-- Every source file mtime in the tree is at most `n`. -/
def CTree.mtimesLe : CTree → Nat → Bool
  | .node _ subs files, n =>
    files.all (fun f => f.mtime ≤ n) && CTree.mtimesLeList subs n

/-- `mtimesLe` over sibling lists. -/
def CTree.mtimesLeList : List CTree → Nat → Bool
  | [], _ => true
  | t :: ts, n => t.mtimesLe n && CTree.mtimesLeList ts n

end

/-- Error component of an aborted walk. -/
def walkErr? : WalkRes → Option RenderErr
  | .error e => some e.1
  | .ok _ => none

/-- Working directory at the moment an aborted walk raised. -/
def walkErrCwd? : WalkRes → Option FPath
  | .error e => some e.2.cwd
  | .ok _ => none

/-- Write log of a completed walk. -/
def walkWrites? : WalkRes → Option (List FPath)
  | .ok st => some st.writes
  | .error _ => none

/-- Output files of a completed walk. -/
def walkFiles? : WalkRes → Option (List (FPath × String × Nat))
  | .ok st => some st.output.files
  | .error _ => none

/-- Output directories of a completed walk. -/
def walkDirs? : WalkRes → Option (List FPath)
  | .ok st => some st.output.dirs
  | .error _ => none

/-- The merged render variables `render` builds for a document, for use
in theorem statements. -/
def renderVarsOf (c : Collab) (o : Options) (tv ev : Dict) (path : String)
    (m0 : Dict) : Dict :=
  baseVars tv ev (effectiveMeta c o path m0) path

/-- Decimal numeral of a natural number. -/
def natNumeral (n : Nat) : String :=
  if n = 0 then "0" else ⟨((Nat.digits 10 n).map Nat.digitChar).reverse⟩

/-- Decimal numeral of an integer. -/
def intNumeral (i : Int) : String :=
  if i < 0 then "-" ++ natNumeral i.natAbs else natNumeral i.natAbs

/-- Date collaborator that never parses. -/
def pdNone : String → Option Nat := fun _ => none

/-- Plain collaborators for concrete runs: dates never parse, Markdown
conversion is the identity, template rendering returns the source. -/
def collabPlain : Collab :=
  { parseDate := pdNone, convertMd := id, renderTemplate := fun s _ => .ok s }

/-- Collaborator that parses exactly the date-shaped stem
`2020-01-01`. -/
def collabDate : Collab :=
  { collabPlain with parseDate := fun s => if s = "2020-01-01" then some 100 else none }

/-- Baseline options mirroring the constructor defaults. -/
def optsBase : Options :=
  { content_dir := "content", output_dir := "output",
    default_template := "default.jinja", root_subdir := none,
    jinja_markdown := true, date_from_filename := true, skip_dirs := [] }

/-- Build parameters over given collaborators and clock. -/
def paramsAt (c : Collab) (now : Nat) : Params :=
  { collab := c, opts := optsBase, resolver := fun _ _ => none,
    templ_vars := default_vars, fuel := 10, now := now }

/-- An initially empty output tree. -/
def emptyOut : OutFS := { files := [], dirs := [] }

/-- Content tree with an (empty) aggregation directory next to a
document. -/
def treeAgg : CTree :=
  .node "content" [.node "_g" [] []] [⟨"a.md", ["title: x", "", "hello"], 0⟩]

/-- Content tree containing a zero-byte document. -/
def treeEmptyDoc : CTree := .node "content" [.node "d" [] [⟨"bad.md", [], 0⟩]] []

/-- Content tree with a document and a copied file in a
subdirectory. -/
def treePlain : CTree :=
  .node "content" [.node "sub" [] [⟨"pic.png", ["BYTES"], 0⟩]]
    [⟨"a.md", ["title: x", "", "hello"], 0⟩]

/-- Pre-existing output with an orphaned file and an up-to-date
destination for `a.md`. -/
def outOrphan : OutFS :=
  { files := [(["old", "x.html"], "junk", 0), (["a.html"], "old", 5)], dirs := [["old"]] }

/-- Existing template files for the resolution example:
`/site/a/theme.tmpl` and `/site/theme.tmpl`. -/
def siteFs : List FPath := [["site", "a", "theme.tmpl"], ["site", "theme.tmpl"]]

/-- Template renderer driving the re-render loop through three passes:
`t0` renders to `{{a}}`, which renders to `{{b}}`, which renders to
`done`. -/
def rtChain : String → Dict → Except Unit String := fun s _ =>
  .ok (if s = "t0" then "\x7b\x7ba\x7d\x7d"
       else if s = "\x7b\x7ba\x7d\x7d" then "\x7b\x7bb\x7d\x7d" else "done")

/-- Template renderer whose output always contains a marker. -/
def rtLoop : String → Dict → Except Unit String := fun _ _ => .ok "\x7b\x7bx\x7d\x7d"

/-- A path denotes an existing output file. -/
def pIn (o : OutFS) (p : FPath) : Prop := ∃ cm : String × Nat, (p, cm) ∈ o.files

/-- Every output file was stamped at time `n`. -/
def allMtime (o : OutFS) (n : Nat) : Prop := ∀ e ∈ o.files, e.2.2 = n

/-- Output file paths are pairwise distinct. -/
def pathsNodup (o : OutFS) : Prop := (o.files.map (fun e => e.1)).Nodup

/-- Walk-step output relation: a step only grows the set of output
files, stamps everything it writes at the current clock, keeps paths
distinct, and writes only at paths in its claim list `C`. -/
def outStep (P : Params) (st st2 : WalkSt) (C : List FPath) : Prop :=
  (∀ p, pIn st.output p → pIn st2.output p) ∧
  (allMtime st.output P.now → allMtime st2.output P.now) ∧
  (pathsNodup st.output → pathsNodup st2.output) ∧
  (∀ p, pIn st2.output p → pIn st.output p ∨ p ∈ C)

/-- The key list of a dict. -/
def dkeys (d : Dict) : List String := d.map Prod.fst

/-- The keys of a dict are pairwise distinct (a CPython dict cannot
hold a key twice; every dict the program builds satisfies this). -/
def nodupKeys (d : Dict) : Prop := (dkeys d).Nodup

/-! # Theorems -/

/-! ## Dictionary lemmas -/

theorem dkeys_nil : dkeys [] = [] := rfl

theorem dkeys_cons (e : String × Value) (t : Dict) :
    dkeys (e :: t) = e.1 :: dkeys t := rfl

theorem dget?_dset (d : Dict) (k k2 : String) (v : Value) :
    dget? (dset d k v) k2 = if k2 = k then some v else dget? d k2 := by
  induction d with
  | nil =>
    by_cases h : k2 = k
    · subst h; simp [dset, dget?]
    · simp [dset, dget?, h, Ne.symm h]
  | cons e t ih =>
    by_cases he : e.1 = k
    · by_cases h : k2 = k
      · subst h; simp [dset, dget?, he]
      · simp [dset, dget?, he, h, Ne.symm h]
    · by_cases h : k2 = k
      · subst h
        simp [dset, dget?, he, ih]
      · simp [dset, dget?, he, h, ih]

theorem dkeys_dset (d : Dict) (k : String) (v : Value) :
    dkeys (dset d k v) = if k ∈ dkeys d then dkeys d else dkeys d ++ [k] := by
  induction d with
  | nil => simp [dset, dkeys]
  | cons e t ih =>
    by_cases he : e.1 = k
    · subst he
      simp [dset, dkeys_cons, List.mem_cons]
    · by_cases hm : k ∈ dkeys t
      · simp [dset, he, dkeys_cons, List.mem_cons, hm, ih]
      · simp [dset, he, dkeys_cons, List.mem_cons, hm, ih, Ne.symm he]

theorem nodupKeys_dset (d : Dict) (k : String) (v : Value) (h : nodupKeys d) :
    nodupKeys (dset d k v) := by
  unfold nodupKeys at *
  rw [dkeys_dset]
  by_cases hm : k ∈ dkeys d
  · simpa [hm] using h
  · rw [if_neg hm]
    exact List.Nodup.append h (List.nodup_singleton k) (List.disjoint_singleton.mpr hm)

theorem dget?_dupdate_not_mem (b : Dict) (k : String) :
    ∀ a : Dict, k ∉ dkeys b → dget? (dupdate a b) k = dget? a k := by
  induction b with
  | nil => intro a _; rfl
  | cons e t ih =>
    intro a h
    have hne : k ≠ e.1 := by
      intro hc
      exact h (by simp [dkeys_cons, hc])
    have ht : k ∉ dkeys t := by
      intro hc
      exact h (by simp [dkeys_cons, hc])
    have step : dupdate a (e :: t) = dupdate (dset a e.1 e.2) t := rfl
    rw [step, ih (dset a e.1 e.2) ht, dget?_dset]
    simp [hne]

theorem dget?_dupdate_mem (b : Dict) (k : String) (v : Value) :
    ∀ a : Dict, nodupKeys b → dget? b k = some v → dget? (dupdate a b) k = some v := by
  induction b with
  | nil => intro a _ h; simp [dget?] at h
  | cons e t ih =>
    intro a hnd h
    have step : dupdate a (e :: t) = dupdate (dset a e.1 e.2) t := rfl
    unfold nodupKeys at hnd
    rw [dkeys_cons] at hnd
    by_cases he : e.1 = k
    · have hv : e.2 = v := by
        simpa [dget?, he] using h
      have hkt : k ∉ dkeys t := by
        intro hmem
        exact (List.nodup_cons.mp hnd).1 (he ▸ hmem)
      rw [step, dget?_dupdate_not_mem t k (dset a e.1 e.2) hkt, dget?_dset]
      simp [he, hv]
    · have ht : dget? t k = some v := by
        simpa [dget?, he] using h
      rw [step]
      exact ih (dset a e.1 e.2) (List.nodup_cons.mp hnd).2 ht

/-! ## Metadata parser lemmas, claims C1 and C10 -/

theorem getMetaLoop_body (pd : String → Option Nat) :
    ∀ (lines : List String) (meta m : Dict) (body : List String),
      getMetaLoop pd meta lines = .ok (m, body) →
      body = List.drop (metaPrefixLen lines + 1) lines := by
  intro lines
  induction lines with
  | nil =>
    intro meta m body h
    simp [getMetaLoop] at h
    simp [h.2]
  | cons l rest ih =>
    intro meta m body h
    by_cases hs : stopLine l
    · simp [getMetaLoop, hs] at h
      simp [metaPrefixLen, List.takeWhile_cons, hs, h.2]
    · have hunf : getMetaLoop pd meta (l :: rest) =
        match coerceVal pd (pyStrip (pyLower (splitColon1 l).1)) (pyStrip (splitColon1 l).2) with
        | .dropKey => getMetaLoop pd meta rest
        | .dateErr => .error .dateParse
        | .store v =>
            getMetaLoop pd (dset meta (pyStrip (pyLower (splitColon1 l).1)) v) rest := by
        simp [getMetaLoop, hs]
      have hlen : metaPrefixLen (l :: rest) = metaPrefixLen rest + 1 := by
        simp [metaPrefixLen, List.takeWhile_cons, hs]
      rw [hunf] at h
      cases hc : coerceVal pd (pyStrip (pyLower (splitColon1 l).1)) (pyStrip (splitColon1 l).2) with
      | dropKey =>
        rw [hc] at h
        rw [hlen]
        simpa [List.drop_succ_cons] using ih meta m body h
      | dateErr =>
        rw [hc] at h
        exact absurd h (by simp)
      | store v =>
        rw [hc] at h
        rw [hlen]
        simpa [List.drop_succ_cons] using
          ih (dset meta (pyStrip (pyLower (splitColon1 l).1)) v) m body h

theorem get_meta_body (pd : String → Option Nat) (lines : List String) (m : Dict)
    (body : List String) (h : get_meta pd lines = .ok (m, body)) :
    body = List.drop (metaPrefixLen lines + 1) lines := by
  cases lines with
  | nil => simp [get_meta] at h
  | cons l rest => exact getMetaLoop_body pd (l :: rest) [] m body h

theorem getMetaLoop_nodup (pd : String → Option Nat) :
    ∀ (lines : List String) (meta m : Dict) (body : List String),
      nodupKeys meta → getMetaLoop pd meta lines = .ok (m, body) → nodupKeys m := by
  intro lines
  induction lines with
  | nil =>
    intro meta m body hnd h
    simp [getMetaLoop] at h
    exact h.1 ▸ hnd
  | cons l rest ih =>
    intro meta m body hnd h
    by_cases hs : stopLine l
    · simp [getMetaLoop, hs] at h
      exact h.1 ▸ hnd
    · have hunf : getMetaLoop pd meta (l :: rest) =
        match coerceVal pd (pyStrip (pyLower (splitColon1 l).1)) (pyStrip (splitColon1 l).2) with
        | .dropKey => getMetaLoop pd meta rest
        | .dateErr => .error .dateParse
        | .store v =>
            getMetaLoop pd (dset meta (pyStrip (pyLower (splitColon1 l).1)) v) rest := by
        simp [getMetaLoop, hs]
      rw [hunf] at h
      cases hc : coerceVal pd (pyStrip (pyLower (splitColon1 l).1)) (pyStrip (splitColon1 l).2) with
      | dropKey =>
        rw [hc] at h
        exact ih meta m body hnd h
      | dateErr =>
        rw [hc] at h
        exact absurd h (by simp)
      | store v =>
        rw [hc] at h
        exact ih _ m body (nodupKeys_dset meta _ v hnd) h

theorem get_meta_nodup (pd : String → Option Nat) (lines : List String) (m : Dict)
    (body : List String) (h : get_meta pd lines = .ok (m, body)) : nodupKeys m := by
  cases lines with
  | nil => simp [get_meta] at h
  | cons l rest =>
    exact getMetaLoop_nodup pd (l :: rest) [] m body (by simp [nodupKeys, dkeys]) h

/-- C1 (amended): `get_meta` stops at the first blank, non-letter, or
colon-free line but always consumes it — the returned body is every
line strictly after the stopping line (empty when every line is
metadata); when the very first line already fails the metadata test the
metadata is empty and the body is the document with that first line
dropped, not the whole document unchanged. -/
theorem C1_meta_block_consumes_stop_line :
    (∀ (pd : String → Option Nat) (lines : List String) (m : Dict) (body : List String),
        get_meta pd lines = .ok (m, body) →
        body = List.drop (metaPrefixLen lines + 1) lines) ∧
    (∀ (pd : String → Option Nat) (l : String) (rest : List String),
        stopLine l = true → get_meta pd (l :: rest) = .ok ([], rest)) := by
  constructor
  · exact get_meta_body
  · intro pd l rest h
    simp [get_meta, getMetaLoop, h]

/-- Witness for C1 at concrete inputs. -/
theorem C1_meta_block_consumes_stop_line_witness :
    ((["hello"] : List String) =
      List.drop (metaPrefixLen ["title: x", "", "hello"] + 1) ["title: x", "", "hello"]) ∧
    get_meta pdNone ("# hi" :: ["body"]) = .ok ([], ["body"]) :=
  ⟨C1_meta_block_consumes_stop_line.1 pdNone ["title: x", "", "hello"]
      [("title", Value.str "x")] ["hello"] rfl,
   C1_meta_block_consumes_stop_line.2 pdNone "# hi" ["body"] rfl⟩

/-- C1 counterexample: on a document whose first line `# hi` is already
a stop line (zero metadata lines), the returned body drops that line —
it is not the whole document, and the non-blank stopping line is
consumed. -/
theorem C1_counterexample :
    get_meta pdNone ["# hi", "body"] = .ok ([], ["body"]) ∧
    (["body"] : List String) ≠ ["# hi", "body"] :=
  ⟨rfl, by decide⟩

/-- C10 (confirmed): `get_meta` on an empty line sequence raises
(`UnboundLocalError`) instead of returning empty metadata and body, so
`render` on a zero-byte document propagates the error, and a build that
reaches such a document aborts with it rather than treating the file as
an empty-metadata skip. -/
theorem C10_empty_document_aborts :
    (∀ pd : String → Option Nat, get_meta pd [] = .error .unboundLocal) ∧
    (∀ (c : Collab) (o : Options) (gt : String → Option String) (tv ev : Dict)
        (path : String) (fuel : Nat),
        render c o gt tv ev path [] fuel = .error .metaEmptyLines) ∧
    walkErr? (generate_site (paramsAt collabPlain 1) treeEmptyDoc emptyOut []) =
      some .metaEmptyLines :=
  ⟨fun _ => rfl, fun _ _ _ _ _ _ _ => rfl, rfl⟩

/-! ## Numeric coercion lemmas and claim C7 -/

theorem digitsToNat_append (cs : List Char) (c : Char) :
    digitsToNat (cs ++ [c]) = digitsToNat cs * 10 + (c.toNat - '0'.toNat) := by
  simp [digitsToNat, List.foldl_append]

theorem digitChar_sub_zero (d : Nat) (h : d < 10) :
    (Nat.digitChar d).toNat - '0'.toNat = d := by
  interval_cases d <;> rfl

theorem digitChar_isDigit (d : Nat) (h : d < 10) : (Nat.digitChar d).isDigit = true := by
  interval_cases d <;> rfl

theorem digitsToNat_rev_map (ds : List Nat) (h : ∀ d ∈ ds, d < 10) :
    digitsToNat ((ds.map Nat.digitChar).reverse) = Nat.ofDigits 10 ds := by
  induction ds with
  | nil => simp [digitsToNat, Nat.ofDigits]
  | cons d t ih =>
    rw [List.map_cons, List.reverse_cons, digitsToNat_append,
      ih (fun x hx => h x (List.mem_cons.mpr (Or.inr hx))),
      digitChar_sub_zero d (h d (List.mem_cons.mpr (Or.inl rfl))), Nat.ofDigits_cons]
    ring

theorem natNumeral_all_digits (n : Nat) :
    ∀ c ∈ (natNumeral n).data, c.isDigit = true := by
  by_cases h0 : n = 0
  · subst h0
    intro c hc
    simp [natNumeral] at hc
    subst hc
    rfl
  · intro c hc
    simp only [natNumeral, h0, if_false] at hc
    have hc2 : c ∈ (Nat.digits 10 n).map Nat.digitChar := List.mem_reverse.mp hc
    rcases List.mem_map.mp hc2 with ⟨d, hd, rfl⟩
    exact digitChar_isDigit d (Nat.digits_lt_base (by norm_num) hd)

theorem natNumeral_val (n : Nat) : digitsToNat (natNumeral n).data = n := by
  by_cases h0 : n = 0
  · subst h0; rfl
  · simp only [natNumeral, h0, if_false]
    have := digitsToNat_rev_map (Nat.digits 10 n)
      (fun d hd => Nat.digits_lt_base (by norm_num) hd)
    calc digitsToNat (String.mk ((Nat.digits 10 n).map Nat.digitChar).reverse).data
        = digitsToNat ((Nat.digits 10 n).map Nat.digitChar).reverse := rfl
      _ = Nat.ofDigits 10 (Nat.digits 10 n) := this
      _ = n := Nat.ofDigits_digits 10 n

theorem natNumeral_ne_nil (n : Nat) : (natNumeral n).data ≠ [] := by
  by_cases h0 : n = 0
  · subst h0; simp [natNumeral]
  · simp only [natNumeral, h0, if_false]
    intro hc
    have : (Nat.digits 10 n).map Nat.digitChar = [] := by
      have := congrArg List.reverse hc
      simpa using this
    exact (Nat.digits_ne_nil_iff_ne_zero.mpr h0) (by simpa using this)

theorem not_ws_of_isDigit (c : Char) (h : c.isDigit = true) : pyWs c = false := by
  by_contra hc
  simp only [Bool.not_eq_false, pyWs, Bool.or_eq_true, decide_eq_true_eq] at hc
  rcases hc with ((((h1 | h1) | h1) | h1) | h1) | h1 <;> (subst h1; exact absurd h (by decide))

theorem not_ws_of_minus (c : Char) (h : c = '-') : pyWs c = false := by
  subst h; rfl

theorem dropWhile_of_none {p : Char → Bool} (l : List Char) (h : ∀ c ∈ l, p c = false) :
    l.dropWhile p = l := by
  cases l with
  | nil => rfl
  | cons c t => simp [List.dropWhile_cons, h c (by simp)]

theorem stripChars_of_none (cs : List Char) (h : ∀ c ∈ cs, pyWs c = false) :
    stripChars cs = cs := by
  unfold stripChars
  rw [dropWhile_of_none cs h,
    dropWhile_of_none cs.reverse (fun c hc => h c (List.mem_reverse.mp hc)),
    List.reverse_reverse]

theorem takeWhile_of_all {p : Char → Bool} (l : List Char) (h : ∀ c ∈ l, p c = true) :
    l.takeWhile p = l := by
  induction l with
  | nil => rfl
  | cons c t ih =>
    have hc := h c (List.mem_cons_self c t)
    simp only [List.takeWhile_cons, hc, if_true]
    rw [ih (fun x hx => h x (List.mem_cons_of_mem c hx))]

theorem dropWhile_of_all {p : Char → Bool} (l : List Char) (h : ∀ c ∈ l, p c = true) :
    l.dropWhile p = [] := by
  induction l with
  | nil => rfl
  | cons c t ih =>
    have hc := h c (List.mem_cons_self c t)
    simp only [List.dropWhile_cons, hc, if_true]
    exact ih (fun x hx => h x (List.mem_cons_of_mem c hx))

theorem parseFloatTail_digits (sgn : Int) (cs : List Char) (hne : cs ≠ [])
    (h : ∀ c ∈ cs, c.isDigit = true) :
    parseFloatTail sgn cs = some (mkRat (sgn * digitsToNat cs) 1) := by
  unfold parseFloatTail
  rw [dropWhile_of_all cs h, takeWhile_of_all cs h]
  simp only []
  rw [if_neg (by simpa [List.isEmpty_iff] using hne)]
  simp [floatOfParts]

theorem parseFloatCore_digits (cs : List Char) (hne : cs ≠ [])
    (h : ∀ c ∈ cs, c.isDigit = true) :
    parseFloatCore cs = some (mkRat (digitsToNat cs) 1) := by
  have hhead : ∀ x, cs.head? = some x → x.isDigit = true := by
    intro x hx
    cases cs with
    | nil => simp at hx
    | cons c t =>
      simp at hx
      exact hx ▸ h c (by simp)
  have h1 : cs.head? ≠ some '-' := fun hx => absurd (hhead _ hx) (by decide)
  have h2 : cs.head? ≠ some '+' := fun hx => absurd (hhead _ hx) (by decide)
  unfold parseFloatCore
  rw [if_neg h1, if_neg h2, parseFloatTail_digits 1 cs hne h]
  simp

theorem parseFloatCore_neg_digits (cs : List Char) (hne : cs ≠ [])
    (h : ∀ c ∈ cs, c.isDigit = true) :
    parseFloatCore ('-' :: cs) = some (mkRat (-(digitsToNat cs : Int)) 1) := by
  unfold parseFloatCore
  rw [if_pos (by simp), List.tail_cons, parseFloatTail_digits (-1) cs hne h]
  simp

theorem parseFloat?_natNumeral (n : Nat) : parseFloat? (natNumeral n) = some (mkRat n 1) := by
  unfold parseFloat?
  have hdata : (pyStrip (natNumeral n)).data = (natNumeral n).data := by
    show stripChars (natNumeral n).data = (natNumeral n).data
    exact stripChars_of_none _
      (fun c hc => not_ws_of_isDigit c (natNumeral_all_digits n c hc))
  rw [hdata, parseFloatCore_digits _ (natNumeral_ne_nil n) (natNumeral_all_digits n),
    natNumeral_val]

theorem minus_append_data (s : String) : ("-" ++ s).data = '-' :: s.data := rfl

theorem parseFloat?_intNumeral (i : Int) : parseFloat? (intNumeral i) = some (mkRat i 1) := by
  by_cases hneg : i < 0
  · unfold parseFloat?
    have hstrip : (pyStrip (intNumeral i)).data = '-' :: (natNumeral i.natAbs).data := by
      show stripChars (intNumeral i).data = '-' :: (natNumeral i.natAbs).data
      have hdata : (intNumeral i).data = '-' :: (natNumeral i.natAbs).data := by
        rw [intNumeral, if_pos hneg, minus_append_data]
      rw [hdata]
      refine stripChars_of_none _ ?_
      intro c hc
      rcases List.mem_cons.mp hc with rfl | hc2
      · rfl
      · exact not_ws_of_isDigit c (natNumeral_all_digits _ c hc2)
    rw [hstrip, parseFloatCore_neg_digits _ (natNumeral_ne_nil _) (natNumeral_all_digits _),
      natNumeral_val]
    congr 1
    rw [Int.ofNat_natAbs_of_nonpos (le_of_lt hneg), neg_neg]
  · unfold parseFloat?
    have hdata : (intNumeral i).data = (natNumeral i.natAbs).data := by
      rw [intNumeral, if_neg hneg]
    have hstrip : (pyStrip (intNumeral i)).data = (natNumeral i.natAbs).data := by
      show stripChars (intNumeral i).data = (natNumeral i.natAbs).data
      rw [hdata]
      exact stripChars_of_none _
        (fun c hc => not_ws_of_isDigit c (natNumeral_all_digits _ c hc))
    rw [hstrip, parseFloatCore_digits _ (natNumeral_ne_nil _) (natNumeral_all_digits _),
      natNumeral_val]
    congr 1
    rw [Int.natAbs_of_nonneg (not_lt.mp hneg)]

theorem contains_eq_false_of_all (l : List Char) (c : Char) (h : ∀ x ∈ l, x ≠ c) :
    l.contains c = false := by
  induction l with
  | nil => rfl
  | cons a t ih =>
    rw [List.contains_cons]
    have ha : (c == a) = false :=
      beq_eq_false_iff_ne.mpr (fun hh => (h a (List.mem_cons_self a t)) hh.symm)
    rw [ha, Bool.false_or]
    exact ih (fun x hx => h x (List.mem_cons_of_mem a hx))

theorem ne_comma_of_isDigit (c : Char) (h : c.isDigit = true) : c ≠ ',' := by
  intro hc
  subst hc
  exact absurd h (by decide)

theorem intNumeral_no_comma (i : Int) : (intNumeral i).data.contains ',' = false := by
  refine contains_eq_false_of_all _ _ ?_
  intro x hx
  by_cases hneg : i < 0
  · rw [intNumeral, if_pos hneg, minus_append_data] at hx
    rcases List.mem_cons.mp hx with rfl | hx2
    · decide
    · exact ne_comma_of_isDigit x (natNumeral_all_digits _ x hx2)
  · rw [intNumeral, if_neg hneg] at hx
    exact ne_comma_of_isDigit x (natNumeral_all_digits _ x hx)

theorem intNumeral_ne_none_str (i : Int) : intNumeral i ≠ "None" := by
  intro hc
  have hd := congrArg String.data hc
  by_cases hneg : i < 0
  · rw [intNumeral, if_pos hneg, minus_append_data] at hd
    have : '-' = 'N' := by
      have := congrArg List.head? hd
      simpa using this
    exact absurd this (by decide)
  · rw [intNumeral, if_neg hneg] at hd
    cases hnn : (natNumeral i.natAbs).data with
    | nil => exact natNumeral_ne_nil _ hnn
    | cons c rest =>
      rw [hnn] at hd
      have hcN : c = 'N' := by
        have := congrArg List.head? hd
        simpa using this
      have : c.isDigit = true := natNumeral_all_digits _ c (by rw [hnn]; simp)
      rw [hcN] at this
      exact absurd this (by decide)

/-- C7 (confirmed): the five coercion examples evaluate exactly as the
specification says, and in general a value that is the decimal numeral
of an integer is stored as that integer, a value parsing as a
non-whole rational is stored as a float, and a value that does not
parse numerically is stored as the trimmed string. -/
theorem C7_metadata_value_coercion :
    get_meta pdNone ["Tags: a, b, c"] =
      .ok ([("tags", Value.vlist [.str "a", .str "b", .str "c"])], []) ∧
    get_meta pdNone ["Count: 3"] = .ok ([("count", Value.int 3)], []) ∧
    get_meta pdNone ["Ratio: 3.5"] = .ok ([("ratio", Value.float (mkRat 7 2))], []) ∧
    get_meta pdNone ["Title: Hello"] = .ok ([("title", Value.str "Hello")], []) ∧
    get_meta pdNone ["Foo: None"] = .ok ([], []) ∧
    (∀ (pd : String → Option Nat) (key : String) (i : Int), key ≠ "date" →
        coerceVal pd key (intNumeral i) = .store (.int i)) ∧
    (∀ (pd : String → Option Nat) (key val : String) (q : Rat), val ≠ "None" →
        key ≠ "date" → (key.data.getLast? = some 's' && val.data.contains ',') = false →
        parseFloat? val = some q → q.den ≠ 1 →
        coerceVal pd key val = .store (.float q)) ∧
    (∀ (pd : String → Option Nat) (key val : String), val ≠ "None" → key ≠ "date" →
        (key.data.getLast? = some 's' && val.data.contains ',') = false →
        parseFloat? val = none →
        coerceVal pd key val = .store (.str (pyStrip val))) := by
  refine ⟨rfl, rfl, rfl, rfl, rfl, ?_, ?_, ?_⟩
  · intro pd key i hk
    unfold coerceVal
    rw [if_neg (intNumeral_ne_none_str i), if_neg hk,
      if_neg (by rw [intNumeral_no_comma i, Bool.and_false]; simp), parseFloat?_intNumeral i]
    simp [Rat.mkRat_one, Rat.den_intCast, Rat.num_intCast]
  · intro pd key val q hv hk hsc hpf hden
    unfold coerceVal
    rw [if_neg hv, if_neg hk, if_neg (by simp only [hsc]; decide), hpf]
    simp [hden]
  · intro pd key val hv hk hsc hpf
    unfold coerceVal
    rw [if_neg hv, if_neg hk, if_neg (by simp only [hsc]; decide), hpf]

/-- Witness for C7 at concrete inputs. -/
theorem C7_metadata_value_coercion_witness :
    coerceVal pdNone "count" (intNumeral (-7)) = .store (.int (-7)) ∧
    coerceVal pdNone "ratio" "3.5" = .store (.float (mkRat 7 2)) ∧
    coerceVal pdNone "title" "Hello" = .store (.str (pyStrip "Hello")) :=
  ⟨C7_metadata_value_coercion.2.2.2.2.2.1 pdNone "count" (-7) (by decide),
   C7_metadata_value_coercion.2.2.2.2.2.2.1 pdNone "ratio" "3.5" (mkRat 7 2)
     (by decide) (by decide) (by decide) rfl (by decide),
   C7_metadata_value_coercion.2.2.2.2.2.2.2 pdNone "title" "Hello"
     (by decide) (by decide) (by decide) rfl⟩

/-! ## Template resolution: claim C4 -/

theorem search_parents_chain (fs : List FPath) :
    ∀ (path : FPath) (fn : String) (stop : FPath),
      fn.data.contains '/' = false →
      search_parents fs path fn stop =
        match (ancestorChain stop path).findSome?
            (fun p => if (p ++ [fn]) ∈ fs then some (p ++ [fn]) else none) with
        | some c => SearchResult.found c
        | none => SearchResult.notFound := by
  intro path fn stop
  induction path, fn, stop using search_parents.induct fs with
  | case1 fn stop =>
    intro _
    rw [search_parents.eq_def, ancestorChain.eq_def]
    simp
  | case2 path fn stop hstop hcon =>
    intro hfn
    rw [hfn] at hcon
    exact absurd hcon (by decide)
  | case3 path fn stop hstop hcon hmem =>
    intro hfn
    have hnotin : '/' ∉ fn.data := by simpa using hfn
    rw [search_parents.eq_def, ancestorChain.eq_def]
    by_cases hdl : path.dropLast = path
    · simp [hstop, hnotin, hmem, hdl]
    · simp [hstop, hnotin, hmem, hdl]
  | case4 path fn stop hstop hcon hmem hdl =>
    intro hfn
    have hnotin : '/' ∉ fn.data := by simpa using hfn
    rw [search_parents.eq_def, ancestorChain.eq_def]
    simp [hstop, hnotin, hmem, hdl]
  | case5 path fn stop hstop hcon hmem hdl ih =>
    intro hfn
    have hnotin : '/' ∉ fn.data := by simpa using hfn
    rw [search_parents.eq_def, ancestorChain.eq_def]
    have hrec := ih hfn
    simp [hstop, hnotin, hmem, hdl, hrec]

/-- C4 (confirmed): ancestor search checks the starting directory and
then each successive parent, the nearest match winning (it returns the
first hit along the ancestor chain); it yields NotFound when the
current directory equals the boundary (which is itself never searched)
or when moving to the parent no longer changes the path; on the
example filesystem with templates at `/site/a/theme.tmpl` and
`/site/theme.tmpl`, the request from `/site/a/b` with boundary `/site`
returns the nearer `/site/a/theme.tmpl`. -/
theorem C4_template_ancestor_search :
    (∀ (fs : List FPath) (path : FPath) (fn : String) (stop : FPath),
        fn.data.contains '/' = false →
        search_parents fs path fn stop =
          match (ancestorChain stop path).findSome?
              (fun p => if (p ++ [fn]) ∈ fs then some (p ++ [fn]) else none) with
          | some c => SearchResult.found c
          | none => SearchResult.notFound) ∧
    search_parents siteFs ["site", "a", "b"] "theme.tmpl" ["site"] =
      .found ["site", "a", "theme.tmpl"] ∧
    search_parents siteFs ["site"] "theme.tmpl" ["site"] = .notFound ∧
    search_parents siteFs [] "theme.tmpl" ["site"] = .notFound := by
  refine ⟨search_parents_chain, ?_, ?_, ?_⟩
  · simp [search_parents.eq_def, siteFs]
  · simp [search_parents.eq_def, siteFs]
  · simp [search_parents.eq_def, siteFs]

/-- Witness for C4 at the example filesystem. -/
theorem C4_template_ancestor_search_witness :
    search_parents siteFs ["site", "a", "b"] "theme.tmpl" ["site"] =
      match (ancestorChain ["site"] ["site", "a", "b"]).findSome?
          (fun p => if (p ++ ["theme.tmpl"]) ∈ siteFs then some (p ++ ["theme.tmpl"]) else none) with
      | some c => SearchResult.found c
      | none => SearchResult.notFound :=
  C4_template_ancestor_search.1 siteFs ["site", "a", "b"] "theme.tmpl" ["site"] rfl

/-! ## The re-render loop: claim C8 -/

/-- C8 (amended): a first-pass output free of `{{...}}` markers ends
the loop after exactly one pass; a first-pass output that still
contains markers triggers a further pass that re-renders using that
output as the new template source with the same render variables
(their `content` updated in place); the loop keeps iterating while
markers remain — it terminates after exactly two passes only when the
second output is marker-free. -/
theorem C8_rerender_loop :
    (∀ (rt : String → Dict → Except Unit String) (fuel : Nat) (src : String) (rv : Dict)
        (out : String), rt src rv = .ok out → containsMarker out = false →
        renderLoop rt (fuel + 1) src rv = .ok (dset rv "content" (.str out), 1)) ∧
    (∀ (rt : String → Dict → Except Unit String) (fuel : Nat) (src : String) (rv : Dict)
        (out : String), rt src rv = .ok out → containsMarker out = true →
        renderLoop rt (fuel + 1) src rv =
          match renderLoop rt fuel out (dset rv "content" (.str out)) with
          | .ok rn => .ok (rn.1, rn.2 + 1)
          | .error e => .error e) ∧
    (∀ (rt : String → Dict → Except Unit String) (fuel : Nat) (src : String) (rv : Dict)
        (out out2 : String), rt src rv = .ok out → containsMarker out = true →
        rt out (dset rv "content" (.str out)) = .ok out2 → containsMarker out2 = false →
        renderLoop rt (fuel + 2) src rv =
          .ok (dset (dset rv "content" (.str out)) "content" (.str out2), 2)) := by
  refine ⟨?_, ?_, ?_⟩
  · intro rt fuel src rv out h1 h2
    simp [renderLoop, h1, h2]
  · intro rt fuel src rv out h1 h2
    simp [renderLoop, h1, h2]
  · intro rt fuel src rv out out2 h1 h2 h3 h4
    show renderLoop rt (fuel + 1 + 1) src rv = _
    simp [renderLoop, h1, h2, h3, h4]

/-- Witness for C8 with the chained renderer. -/
theorem C8_rerender_loop_witness :
    (renderLoop rtChain 5 "\x7b\x7bb\x7d\x7d" [] =
      .ok (dset [] "content" (.str "done"), 1)) ∧
    renderLoop rtChain 6 "\x7b\x7ba\x7d\x7d" [] =
      .ok (dset (dset [] "content" (.str "\x7b\x7bb\x7d\x7d")) "content" (.str "done"), 2) :=
  ⟨C8_rerender_loop.1 rtChain 4 "\x7b\x7bb\x7d\x7d" [] "done" rfl rfl,
   C8_rerender_loop.2.2 rtChain 4 "\x7b\x7ba\x7d\x7d" [] "\x7b\x7bb\x7d\x7d" "done"
     rfl rfl rfl rfl⟩

/-- C8 counterexample: the chained renderer's first-pass output
`{{a}}` still contains markers, yet the loop runs three passes in
total, not exactly one additional pass; the constant-marker renderer
never terminates at all (the instrumented loop exhausts any fuel). -/
theorem C8_counterexample :
    rtChain "t0" [] = .ok "\x7b\x7ba\x7d\x7d" ∧
    containsMarker "\x7b\x7ba\x7d\x7d" = true ∧
    renderLoop rtChain 10 "t0" [] = .ok ([("content", Value.str "done")], 3) ∧
    (3 : Nat) ≠ 2 ∧
    renderLoop rtLoop 7 "t" [] = .error .nonTermination :=
  ⟨rfl, rfl, rfl, by decide, rfl⟩

/-! ## Renderer lemmas, claims C5 and C2 -/

theorem nodupKeys_effectiveMeta (c : Collab) (o : Options) (path : String) (m0 : Dict)
    (h : nodupKeys m0) : nodupKeys (effectiveMeta c o path m0) := by
  unfold effectiveMeta
  by_cases hc : (dget? m0 "date").isNone && o.date_from_filename
  · rw [if_pos hc]
    cases c.parseDate (pySplitext path).1 with
    | none => exact h
    | some d => exact nodupKeys_dset m0 "date" (.date d) h
  · rw [if_neg hc]
    exact h

theorem dget?_baseVars (tv ev meta : Dict) (path : String) (k : String)
    (hk1 : k ≠ "filename") (hk2 : k ≠ "htmlfile") :
    dget? (baseVars tv ev meta path) k = dget? (dupdate (dupdate tv ev) meta) k := by
  unfold baseVars
  rw [dget?_dset, if_neg hk2, dget?_dset, if_neg hk1]

theorem truthyGet_baseVars_of_meta (tv ev meta : Dict) (path : String) (v : Value)
    (hnd : nodupKeys meta) (hv : dget? meta "skip" = some v) (ht : truthy v = true) :
    truthyGet (baseVars tv ev meta path) "skip" = true := by
  unfold truthyGet
  rw [dget?_baseVars tv ev meta path "skip" (by decide) (by decide),
    dget?_dupdate_mem meta "skip" v (dupdate tv ev) hnd hv]
  exact ht

/-- C2 (amended): a document whose metadata — after the
filename-derived date step — carries a truthy `skip` is skipped with
`content = None`; a document whose effective metadata is empty is
likewise skipped; and for any document whose render result has a falsy
`content`, the walker changes neither the output tree nor the write
log.  (Empty front matter alone does not suffice: a date-parseable
filename repopulates the metadata first.) -/
theorem C2_skip_and_empty_meta :
    (∀ (c : Collab) (o : Options) (gt : String → Option String) (tv ev : Dict)
        (path : String) (lines : List String) (fuel : Nat) (m0 : Dict)
        (body : List String) (v : Value),
        get_meta c.parseDate lines = .ok (m0, body) →
        dget? (effectiveMeta c o path m0) "skip" = some v → truthy v = true →
        render c o gt tv ev path lines fuel =
          .ok (dset (renderVarsOf c o tv ev path m0) "content" .pynone)) ∧
    (∀ (c : Collab) (o : Options) (gt : String → Option String) (tv ev : Dict)
        (path : String) (lines : List String) (fuel : Nat) (m0 : Dict)
        (body : List String),
        get_meta c.parseDate lines = .ok (m0, body) →
        effectiveMeta c o path m0 = [] →
        render c o gt tv ev path lines fuel =
          .ok (dset (renderVarsOf c o tv ev path m0) "content" .pynone)) ∧
    (∀ (P : Params) (root : FPath) (dirNames : List String) (inSub : Bool)
        (group : String) (parent : FPath) (f : CFile) (st st' : WalkSt) (mv : Dict),
        (pySplitext f.name).2 = ".md" →
        render P.collab P.opts (P.resolver root) P.templ_vars (evGet st.extravars root)
          f.name f.lines P.fuel = .ok mv →
        truthy ((dget? mv "content").getD .pynone) = false →
        inSub = false →
        processFile P root dirNames inSub group parent f st = .ok st' →
        st'.output = st.output ∧ st'.writes = st.writes) := by
  refine ⟨?_, ?_, ?_⟩
  · intro c o gt tv ev path lines fuel m0 body v hm hskip htr
    have hnd := nodupKeys_effectiveMeta c o path m0 (get_meta_nodup c.parseDate lines m0 body hm)
    have hskipT : truthyGet (baseVars tv ev (effectiveMeta c o path m0) path) "skip" = true :=
      truthyGet_baseVars_of_meta tv ev _ path v hnd hskip htr
    unfold render renderVarsOf
    simp only [hm, hskipT, Bool.true_or, if_true]
  · intro c o gt tv ev path lines fuel m0 body hm hempty
    unfold render renderVarsOf
    simp only [hm, hempty, List.isEmpty_nil, Bool.or_true, if_true]
  · intro P root dirNames inSub group parent f st st' mv hext hrender htr hinSub hpf
    subst hinSub
    have hmd : ∀ (dfile : FPath) (stx : WalkSt), stx.extravars = st.extravars →
        processMd P root false group parent f dfile stx = .ok stx := by
      intro dfile stx hev
      unfold processMd
      dsimp only
      rw [← hev] at hrender
      rw [hrender]
      dsimp only
      rw [htr]
      simp
    unfold processFile at hpf
    dsimp only at hpf
    by_cases hhid : (pyStartsWith f.name "." || decide ((pySplitext f.name).2 = ".jinja")) = true
    · rw [if_pos hhid] at hpf
      cases hpf
      exact ⟨rfl, rfl⟩
    · rw [if_neg hhid] at hpf
      rw [hext] at hpf
      rw [if_pos rfl] at hpf
      by_cases hstale : (match outGet? st.output (destfileOf (destrootFor P.opts root parent
          group false (pySplitext f.name).1) ".html") with
        | some cm => !dirNames.any (fun dn => pyStartsWith dn "_") && decide (f.mtime ≤ cm.2)
        | none => false) = true
      · rw [if_pos hstale] at hpf
        cases hpf
        exact ⟨rfl, rfl⟩
      · rw [if_neg hstale] at hpf
        rw [if_pos rfl] at hpf
        rw [hmd (destfileOf (destrootFor P.opts root parent group false (pySplitext f.name).1) ".html")
            { extravars := st.extravars,
              destfiles := st.destfiles.erase
                (destfileOf (destrootFor P.opts root parent group false (pySplitext f.name).1) ".html"),
              output := st.output, writes := st.writes, cwd := st.cwd } rfl] at hpf
        cases hpf
        exact ⟨rfl, rfl⟩

/-- Witness for C2 at concrete inputs. -/
theorem C2_skip_and_empty_meta_witness :
    render collabPlain optsBase (fun _ => none) [] [] "a.md" ["skip: yes", "", "zzz"] 5 =
      .ok (dset (renderVarsOf collabPlain optsBase [] [] "a.md" [("skip", Value.str "yes")])
        "content" .pynone) ∧
    render collabPlain optsBase (fun _ => none) [] [] "frag.md" ["# x", "body"] 5 =
      .ok (dset (renderVarsOf collabPlain optsBase [] [] "frag.md" []) "content" .pynone) :=
  ⟨C2_skip_and_empty_meta.1 collabPlain optsBase (fun _ => none) [] [] "a.md"
      ["skip: yes", "", "zzz"] 5 [("skip", Value.str "yes")] ["zzz"] (Value.str "yes")
      rfl rfl rfl,
   C2_skip_and_empty_meta.2.1 collabPlain optsBase (fun _ => none) [] [] "frag.md"
      ["# x", "body"] 5 [] ["body"] rfl rfl⟩

/-- C2 counterexample: a document with empty front matter whose
filename stem parses as a date is not skipped — the date option
repopulates the metadata and the render returns real content, not
null. -/
theorem C2_counterexample :
    (get_meta collabDate.parseDate ["# hi", "body"]).toOption.map (fun p => p.1) = some [] ∧
    (render collabDate optsBase (fun _ => none) [] [] "2020-01-01.md" ["# hi", "body"] 5).toOption.bind
        (fun rv => dget? rv "content") = some (.str "body") ∧
    Value.str "body" ≠ Value.pynone :=
  ⟨rfl, rfl, fun h => Value.noConfusion h⟩

/-- C5 (amended): when template resolution signals NotFound, the
recoverable-versus-fatal decision is taken on the merged render
variables, not on the document metadata alone: when no `template` key
is present in the merged variables the render returns the
Markdown-only HTML; when a `template` key is present — whether it came
from the metadata, the aggregation variables, or the globals — the
build terminates fatally after the report. -/
theorem C5_template_notfound_decision :
    ∀ (c : Collab) (o : Options) (gt : String → Option String) (tv ev : Dict)
      (path : String) (lines : List String) (fuel : Nat) (m0 : Dict)
      (body : List String) (mdtext : String),
      get_meta c.parseDate lines = .ok (m0, body) →
      truthyGet (renderVarsOf c o tv ev path m0) "skip" = false →
      (effectiveMeta c o path m0).isEmpty = false →
      (if o.jinja_markdown then
        c.renderTemplate (String.join body) (renderVarsOf c o tv ev path m0)
       else .ok (String.join body)) = .ok mdtext →
      gt (templateFileName o (dset (renderVarsOf c o tv ev path m0) "content"
          (.str (c.convertMd mdtext)))) = none →
      ((dget? (renderVarsOf c o tv ev path m0) "template").isNone →
        render c o gt tv ev path lines fuel =
          .ok (dset (renderVarsOf c o tv ev path m0) "content" (.str (c.convertMd mdtext)))) ∧
      ((dget? (renderVarsOf c o tv ev path m0) "template").isSome →
        render c o gt tv ev path lines fuel = .error .noExplicitTemplate) := by
  intro c o gt tv ev path lines fuel m0 body mdtext hm hskip hne hmd hgt
  unfold renderVarsOf at hskip hmd hgt ⊢
  have htmpl : dget? (dset (baseVars tv ev (effectiveMeta c o path m0) path) "content"
      (.str (c.convertMd mdtext))) "template" =
      dget? (baseVars tv ev (effectiveMeta c o path m0) path) "template" := by
    rw [dget?_dset]
    simp
  have hrender : render c o gt tv ev path lines fuel =
      (if (dget? (baseVars tv ev (effectiveMeta c o path m0) path) "template").isNone then
        .ok (dset (baseVars tv ev (effectiveMeta c o path m0) path) "content"
          (.str (c.convertMd mdtext)))
      else .error .noExplicitTemplate) := by
    unfold render
    simp only [hm]
    rw [if_neg (by rw [hskip]; rw [hne]; simp)]
    simp only [hmd]
    rw [hgt, htmpl]
  constructor
  · intro hnone
    rw [hrender, if_pos hnone]
  · intro hsome
    rw [hrender, if_neg (by simp only [Option.isNone_iff_eq_none]; intro hc; rw [hc] at hsome; simp at hsome)]

/-- Witness for C5 at a concrete document. -/
theorem C5_template_notfound_decision_witness :
    render collabPlain optsBase (fun _ => none) [] [] "a.md" ["title: x", "", "hello"] 5 =
      .ok (dset (renderVarsOf collabPlain optsBase [] [] "a.md" [("title", Value.str "x")])
        "content" (.str (collabPlain.convertMd "hello"))) :=
  (C5_template_notfound_decision collabPlain optsBase (fun _ => none) [] [] "a.md"
    ["title: x", "", "hello"] 5 [("title", Value.str "x")] ["hello"] "hello"
    rfl rfl rfl rfl rfl).1 rfl

/-- C5 counterexample: this document's metadata has no `template` key,
but the aggregation variables supply one; with resolution failing, the
render is fatal instead of falling back to the Markdown-only HTML. -/
theorem C5_counterexample :
    (get_meta pdNone ["title: x", "", "hello"]).toOption.map (fun p => dget? p.1 "template") =
      some none ∧
    render collabPlain optsBase (fun _ => none) [] [("template", Value.str "zzz")] "a.md"
      ["title: x", "", "hello"] 5 = .error .noExplicitTemplate :=
  ⟨rfl, rfl⟩

/-! ## Working directory discipline: claim C9 -/

theorem processMd_cwd (P : Params) (root : FPath) (inSub : Bool) (group : String)
    (parent : FPath) (f : CFile) (dfile : FPath) (st st' : WalkSt)
    (h : processMd P root inSub group parent f dfile st = .ok st') : st'.cwd = st.cwd := by
  unfold processMd at h
  dsimp only at h
  split at h
  · simp at h
  · split at h
    · cases h
      rfl
    · split at h
      · cases h
        rfl
      · cases h
        rfl

theorem processCopy_cwd (P : Params) (f : CFile) (dfile : FPath) (st st' : WalkSt)
    (h : processCopy P f dfile st = .ok st') : st'.cwd = st.cwd := by
  unfold processCopy at h
  split at h
  · cases h
    rfl
  · cases h
    rfl

theorem processFile_cwd (P : Params) (root : FPath) (dirNames : List String) (inSub : Bool)
    (group : String) (parent : FPath) (f : CFile) (st st' : WalkSt)
    (h : processFile P root dirNames inSub group parent f st = .ok st') : st'.cwd = st.cwd := by
  unfold processFile at h
  dsimp only at h
  split at h
  · cases h
    rfl
  · generalize destfileOf (destrootFor P.opts root parent group inSub (pySplitext f.name).1)
        (if (pySplitext f.name).2 = ".md" then ".html" else (pySplitext f.name).2) = dfl at h
    split at h
    · cases h
      rfl
    · split at h
      · have hc := processMd_cwd P root inSub group parent f dfl
          { extravars := st.extravars, destfiles := st.destfiles.erase dfl,
            output := st.output, writes := st.writes, cwd := st.cwd } st' h
        exact hc
      · have hc := processCopy_cwd P f dfl
          { extravars := st.extravars, destfiles := st.destfiles.erase dfl,
            output := st.output, writes := st.writes, cwd := st.cwd } st' h
        exact hc

theorem processFiles_cwd (P : Params) (root : FPath) (dirNames : List String) (inSub : Bool)
    (group : String) (parent : FPath) :
    ∀ (files : List CFile) (st st' : WalkSt),
      processFiles P root dirNames inSub group parent files st = .ok st' →
      st'.cwd = st.cwd := by
  intro files
  induction files with
  | nil =>
    intro st st' h
    cases h
    rfl
  | cons f fs ih =>
    intro st st' h
    unfold processFiles at h
    split at h
    · simp at h
    · rename_i st2 h2
      rw [ih st2 st' h, processFile_cwd P root dirNames inSub group parent f st st2 h2]

theorem processDir_cwd (P : Params) (root : FPath) (dirNames : List String)
    (files : List CFile) (st st' : WalkSt)
    (h : processDir P root dirNames files st = .ok st') : st'.cwd = st.cwd := by
  unfold processDir at h
  dsimp only at h
  split at h
  · cases h
    rfl
  · split at h
    · have hc := processFiles_cwd P root dirNames _ _ _ files _ st' h
      exact hc
    · have hc := processFiles_cwd P root dirNames _ _ _ files _ st' h
      exact hc

mutual

theorem processTree_cwd (P : Params) (pfx : FPath) (t : CTree) (st st' : WalkSt)
    (h : processTree P pfx t st = .ok st') : st'.cwd = st.cwd := by
  cases t with
  | node nm subs files =>
    unfold processTree at h
    split at h
    · simp at h
    · rename_i st2 h2
      rw [processDir_cwd P (pfx ++ [nm]) (subs.map CTree.name) files st2 st' h,
        processSubs_cwd P (pfx ++ [nm]) subs st st2 h2]

theorem processSubs_cwd (P : Params) (root : FPath) (ts : List CTree) (st st' : WalkSt)
    (h : processSubs P root ts st = .ok st') : st'.cwd = st.cwd := by
  cases ts with
  | nil =>
    cases h
    rfl
  | cons t rest =>
    unfold processSubs at h
    split at h
    · simp at h
    · rename_i st2 h2
      rw [processSubs_cwd P root rest st2 st' h, processTree_cwd P root t st st2 h2]

end

/-- C9 (amended): on every success path the working directory is
restored before control returns to the walker — after each document,
each file, and each whole subtree; on a failure path it is not
restored: the exception propagates with the working directory still
switched to the failing document's directory, and the whole walk
aborts, so no later directory is processed with the corrupted
value. -/
theorem C9_workdir_restore :
    (∀ (P : Params) (root : FPath) (inSub : Bool) (group : String) (parent : FPath)
        (f : CFile) (dfile : FPath) (st st' : WalkSt),
        processMd P root inSub group parent f dfile st = .ok st' → st'.cwd = st.cwd) ∧
    (∀ (P : Params) (root : FPath) (dirNames : List String) (inSub : Bool) (group : String)
        (parent : FPath) (f : CFile) (st st' : WalkSt),
        processFile P root dirNames inSub group parent f st = .ok st' → st'.cwd = st.cwd) ∧
    (∀ (P : Params) (pfx : FPath) (t : CTree) (st st' : WalkSt),
        processTree P pfx t st = .ok st' → st'.cwd = st.cwd) :=
  ⟨processMd_cwd, processFile_cwd, processTree_cwd⟩

/-- Witness for C9 on a concrete successful walk. -/
theorem C9_workdir_restore_witness :
    processTree (paramsAt collabPlain 1) [] treePlain
        { extravars := [], destfiles := [], output := emptyOut, writes := [], cwd := ["here"] } =
      .ok { extravars := [(["content", "sub"], [("roots", Value.vlist [.str "sub"])]),
                          (["content"], [("roots", Value.vlist [.str "."])])],
            destfiles := [],
            output := { files := [(["sub", "pic.png"], "BYTES", 1), (["a.html"], "hello", 1)],
                        dirs := [["sub"]] },
            writes := [["sub", "pic.png"], ["a.html"]], cwd := ["here"] } ∧
    WalkSt.cwd { extravars := [(["content", "sub"], [("roots", Value.vlist [.str "sub"])]),
                               (["content"], [("roots", Value.vlist [.str "."])])],
                 destfiles := [],
                 output := { files := [(["sub", "pic.png"], "BYTES", 1), (["a.html"], "hello", 1)],
                             dirs := [["sub"]] },
                 writes := [["sub", "pic.png"], ["a.html"]], cwd := ["here"] } = ["here"] :=
  ⟨rfl, C9_workdir_restore.2.2 (paramsAt collabPlain 1) [] treePlain
    { extravars := [], destfiles := [], output := emptyOut, writes := [], cwd := ["here"] }
    { extravars := [(["content", "sub"], [("roots", Value.vlist [.str "sub"])]),
                    (["content"], [("roots", Value.vlist [.str "."])])],
      destfiles := [],
      output := { files := [(["sub", "pic.png"], "BYTES", 1), (["a.html"], "hello", 1)],
                  dirs := [["sub"]] },
      writes := [["sub", "pic.png"], ["a.html"]], cwd := ["here"] } rfl⟩

/-- C9 counterexample: a render failure (here the zero-byte document)
propagates without restoring the working directory — the walk aborts
with the directory still set to the failing document's directory, not
the prior value. -/
theorem C9_counterexample :
    walkErrCwd? (generate_site (paramsAt collabPlain 1) treeEmptyDoc emptyOut []) =
      some ["content", "d"] ∧ (["content", "d"] : FPath) ≠ ([] : FPath) :=
  ⟨rfl, by decide⟩

/-! ## Destination claiming: claim C6 -/

theorem contains_append (cs1 cs2 : List FPath) (x : FPath) :
    ((cs1 ++ cs2).contains x) = (cs1.contains x || cs2.contains x) := by
  induction cs1 with
  | nil => simp
  | cons a t ih => simp [List.contains_cons, ih, Bool.or_assoc]

theorem filter_not_contains_nil (l : List FPath) :
    l.filter (fun d => !(([] : List FPath).contains d)) = l := by
  simp [List.contains]

theorem filter_not_contains_append (l cs1 cs2 : List FPath) :
    l.filter (fun d => !((cs1 ++ cs2).contains d)) =
      (l.filter (fun d => !(cs1.contains d))).filter (fun d => !(cs2.contains d)) := by
  rw [List.filter_filter]
  refine List.filter_congr ?_
  intro x _
  rw [contains_append]
  cases cs1.contains x <;> cases cs2.contains x <;> rfl

theorem erase_eq_filter_singleton (l : List FPath) (a : FPath) (h : l.Nodup) :
    l.erase a = l.filter (fun d => !(([a] : List FPath).contains d)) := by
  rw [List.Nodup.erase_eq_filter h a]
  refine List.filter_congr ?_
  intro x _
  by_cases hxa : x = a
  · subst hxa
    simp
  · have hb : (x == a) = false := beq_eq_false_iff_ne.mpr hxa
    simp [bne, hb, List.contains_cons]
    exact hxa

theorem processMd_destfiles (P : Params) (root : FPath) (inSub : Bool) (group : String)
    (parent : FPath) (f : CFile) (dfile : FPath) (st st' : WalkSt)
    (h : processMd P root inSub group parent f dfile st = .ok st') :
    st'.destfiles = st.destfiles ∨ st'.destfiles = st.destfiles.erase dfile := by
  unfold processMd at h
  dsimp only at h
  split at h
  · simp at h
  · split at h
    · cases h
      exact Or.inl rfl
    · split at h
      · cases h
        exact Or.inr rfl
      · cases h
        exact Or.inl rfl

theorem processCopy_destfiles (P : Params) (f : CFile) (dfile : FPath) (st st' : WalkSt)
    (h : processCopy P f dfile st = .ok st') : st'.destfiles = st.destfiles := by
  unfold processCopy at h
  split at h
  · cases h
    rfl
  · cases h
    rfl

theorem processFile_destfiles (P : Params) (root : FPath) (dirNames : List String)
    (inSub : Bool) (group : String) (parent : FPath) (f : CFile) (st st' : WalkSt)
    (h : processFile P root dirNames inSub group parent f st = .ok st')
    (hnd : st.destfiles.Nodup) :
    st'.destfiles = st.destfiles.filter
      (fun d => !((fileClaims P.opts root parent inSub group f).contains d)) ∧
    st'.destfiles.Nodup := by
  unfold processFile at h
  unfold fileClaims
  dsimp only at h
  split at h
  · rename_i hhid
    rw [if_pos hhid]
    cases h
    exact ⟨(filter_not_contains_nil st.destfiles).symm, hnd⟩
  · rename_i hhid
    rw [if_neg hhid]
    rw [show ((if (pySplitext f.name).2 = ".md" then ".html" else (pySplitext f.name).2)) =
      (if (pySplitext f.name).2 = ".md" then ".html" else (pySplitext f.name).2) from rfl] at h
    generalize hgen : destfileOf (destrootFor P.opts root parent group inSub (pySplitext f.name).1)
        (if (pySplitext f.name).2 = ".md" then ".html" else (pySplitext f.name).2) = dfl at h ⊢
    have hfe : st.destfiles.erase dfl = st.destfiles.filter
        (fun d => !(([dfl] : List FPath).contains d)) :=
      erase_eq_filter_singleton st.destfiles dfl hnd
    have hnm : dfl ∉ st.destfiles.erase dfl := by
      rw [List.Nodup.erase_eq_filter hnd dfl]
      intro hmem
      have := List.of_mem_filter hmem
      simp at this
    split at h
    · cases h
      exact ⟨hfe, hfe ▸ List.Nodup.filter _ hnd⟩
    · split at h
      · rcases processMd_destfiles P root inSub group parent f dfl _ st' h with h2 | h2
        · rw [h2]
          exact ⟨hfe, hfe ▸ List.Nodup.filter _ hnd⟩
        · rw [h2]
          dsimp only
          rw [List.erase_of_not_mem hnm]
          exact ⟨hfe, hfe ▸ List.Nodup.filter _ hnd⟩
      · rw [processCopy_destfiles P f dfl _ st' h]
        exact ⟨hfe, hfe ▸ List.Nodup.filter _ hnd⟩

theorem processFiles_destfiles (P : Params) (root : FPath) (dirNames : List String)
    (inSub : Bool) (group : String) (parent : FPath) :
    ∀ (files : List CFile) (st st' : WalkSt),
      processFiles P root dirNames inSub group parent files st = .ok st' →
      st.destfiles.Nodup →
      st'.destfiles = st.destfiles.filter
        (fun d => !(((files.map (fileClaims P.opts root parent inSub group)).flatten).contains d)) ∧
      st'.destfiles.Nodup := by
  intro files
  induction files with
  | nil =>
    intro st st' h hnd
    cases h
    exact ⟨(filter_not_contains_nil st.destfiles).symm, hnd⟩
  | cons f fs ih =>
    intro st st' h hnd
    unfold processFiles at h
    split at h
    · simp at h
    · rename_i st2 h2
      have hf := processFile_destfiles P root dirNames inSub group parent f st st2 h2 hnd
      have hrest := ih st2 st' h hf.2
      refine ⟨?_, hrest.2⟩
      rw [hrest.1, hf.1, List.map_cons, List.flatten_cons, filter_not_contains_append]

theorem processDir_destfiles (P : Params) (root : FPath) (dirNames : List String)
    (files : List CFile) (st st' : WalkSt)
    (h : processDir P root dirNames files st = .ok st')
    (hnd : st.destfiles.Nodup) :
    st'.destfiles = st.destfiles.filter
      (fun d => !((dirClaims P.opts root files).contains d)) ∧
    st'.destfiles.Nodup := by
  unfold processDir at h
  unfold dirClaims
  dsimp only at h ⊢
  split at h
  · rename_i hskip
    rw [if_pos hskip]
    cases h
    exact ⟨(filter_not_contains_nil st.destfiles).symm, hnd⟩
  · rename_i hskip
    rw [if_neg hskip]
    split at h
    · rename_i hins
      rw [if_pos hins]
      have hres := processFiles_destfiles P root dirNames _ _ _ files _ st' h hnd
      exact hres
    · rename_i hins
      rw [if_neg hins]
      have hres := processFiles_destfiles P root dirNames _ _ _ files _ st' h hnd
      exact hres

mutual

theorem processTree_destfiles (P : Params) (pfx : FPath) (t : CTree) (st st' : WalkSt)
    (h : processTree P pfx t st = .ok st')
    (hnd : st.destfiles.Nodup) :
    st'.destfiles = st.destfiles.filter
      (fun d => !((treeClaims P.opts pfx t).contains d)) ∧
    st'.destfiles.Nodup := by
  cases t with
  | node nm subs files =>
    unfold processTree at h
    unfold treeClaims
    split at h
    · simp at h
    · rename_i st2 h2
      have hsub := processSubs_destfiles P (pfx ++ [nm]) subs st st2 h2 hnd
      have hdir := processDir_destfiles P (pfx ++ [nm]) (subs.map CTree.name) files st2 st' h hsub.2
      refine ⟨?_, hdir.2⟩
      rw [hdir.1, hsub.1, filter_not_contains_append]

theorem processSubs_destfiles (P : Params) (root : FPath) (ts : List CTree) (st st' : WalkSt)
    (h : processSubs P root ts st = .ok st')
    (hnd : st.destfiles.Nodup) :
    st'.destfiles = st.destfiles.filter
      (fun d => !((subsClaims P.opts root ts).contains d)) ∧
    st'.destfiles.Nodup := by
  cases ts with
  | nil =>
    cases h
    exact ⟨(filter_not_contains_nil st.destfiles).symm, hnd⟩
  | cons t rest =>
    unfold processSubs at h
    unfold subsClaims
    split at h
    · simp at h
    · rename_i st2 h2
      have ht := processTree_destfiles P root t st st2 h2 hnd
      have hrest := processSubs_destfiles P root rest st2 st' h ht.2
      refine ⟨?_, hrest.2⟩
      rw [hrest.1, ht.1, filter_not_contains_append]

end

theorem reconcile_cons (f : FPath) (fs : List FPath) (o : OutFS) :
    reconcile (f :: fs) o = reconcile fs (reconStep o f) := rfl

theorem reconStep_files (o : OutFS) (f : FPath) :
    (reconStep o f).files = o.files.filter (fun e => !(e.1 == f)) := by
  unfold reconStep outUnlink outRmdir
  dsimp only
  split <;> rfl

theorem reconcile_files (D : List FPath) :
    ∀ o : OutFS, (reconcile D o).files = o.files.filter (fun e => !(D.contains e.1)) := by
  induction D with
  | nil =>
    intro o
    simp [reconcile, List.contains]
  | cons f fs ih =>
    intro o
    rw [reconcile_cons, ih (reconStep o f), reconStep_files, List.filter_filter]
    refine List.filter_congr ?_
    intro e _
    rw [List.contains_cons]
    cases hb : (e.1 == f) <;> cases hc : fs.contains e.1 <;> rfl

theorem reconcile_dirs_subset (D : List FPath) :
    ∀ (o : OutFS) (p : FPath), p ∈ o.dirs → p ∉ (reconcile D o).dirs →
      p ∈ D.map List.dropLast := by
  induction D with
  | nil =>
    intro o p hin hout
    exact absurd hin hout
  | cons f fs ih =>
    intro o p hin hout
    rw [reconcile_cons] at hout
    by_cases hmid : p ∈ (reconStep o f).dirs
    · exact List.mem_cons_of_mem _ (ih (reconStep o f) p hmid hout)
    · have hp : p = f.dropLast := by
        unfold reconStep outUnlink outRmdir at hmid
        dsimp only at hmid
        split at hmid
        · by_contra hne
          refine hmid (List.mem_filter.mpr ⟨hin, ?_⟩)
          simp [beq_eq_false_iff_ne.mpr hne]
        · exact absurd hin hmid
      rw [List.map_cons, hp]
      exact List.mem_cons_self _ _

/-- C6 (confirmed): during the walk every non-hidden, non-template
source file's destination is removed from the destination set whether
or not the file is rewritten (staleness skips still claim); after the
walk, reconciliation deletes exactly the paths still in the set, and
for each deleted file removes its immediate parent directory exactly
when that parent has just become empty (only the immediate parent is
ever considered); in the concrete scenario the stale-skipped document
still claims its destination while the orphan and its emptied parent
directory are removed. -/
theorem C6_destination_set_claiming :
    (∀ (P : Params) (pfx : FPath) (t : CTree) (st st' : WalkSt),
        processTree P pfx t st = .ok st' → st.destfiles.Nodup →
        st'.destfiles = st.destfiles.filter
          (fun d => !((treeClaims P.opts pfx t).contains d))) ∧
    (∀ (D : List FPath) (o : OutFS),
        (reconcile D o).files = o.files.filter (fun e => !(D.contains e.1))) ∧
    (∀ (D : List FPath) (o : OutFS) (p : FPath),
        p ∈ o.dirs → p ∉ (reconcile D o).dirs → p ∈ D.map List.dropLast) ∧
    (∀ (o : OutFS) (f : FPath),
        (listdirCount (outUnlink o f) f.dropLast = 0 →
          reconcile [f] o = outRmdir (outUnlink o f) f.dropLast) ∧
        (listdirCount (outUnlink o f) f.dropLast ≠ 0 →
          reconcile [f] o = outUnlink o f)) ∧
    walkWrites? (generate_site (paramsAt collabPlain 1) treePlain outOrphan []) =
      some [["sub", "pic.png"]] ∧
    walkFiles? (generate_site (paramsAt collabPlain 1) treePlain outOrphan []) =
      some [(["a.html"], "old", 5), (["sub", "pic.png"], "BYTES", 1)] ∧
    walkDirs? (generate_site (paramsAt collabPlain 1) treePlain outOrphan []) =
      some [["sub"]] := by
  refine ⟨?_, reconcile_files, reconcile_dirs_subset, ?_, rfl, rfl, rfl⟩
  · intro P pfx t st st' h hnd
    exact (processTree_destfiles P pfx t st st' h hnd).1
  · intro o f
    constructor <;> intro hc <;> simp [reconcile, reconStep, hc]

/-- Witness for C6: the destination-set characterisation applied to a
concrete walk, and the parent-removal step on a concrete output. -/
theorem C6_destination_set_claiming_witness :
    WalkSt.destfiles { extravars := [(["content", "sub"], [("roots", Value.vlist [.str "sub"])]),
                        (["content"], [("roots", Value.vlist [.str "."])])],
                       destfiles := [["stale.html"]],
                       output := { files := [(["stale.html"], "junk", 0),
                                             (["sub", "pic.png"], "BYTES", 1),
                                             (["a.html"], "hello", 1)],
                                   dirs := [["sub"]] },
                       writes := [["sub", "pic.png"], ["a.html"]],
                       cwd := [] } =
      List.filter (fun d => !((treeClaims (paramsAt collabPlain 1).opts [] treePlain).contains d))
        [["stale.html"]] ∧
    reconcile [["old", "x.html"]] { files := [(["old", "x.html"], "junk", 0)], dirs := [["old"]] } =
      outRmdir (outUnlink { files := [(["old", "x.html"], "junk", 0)], dirs := [["old"]] }
        ["old", "x.html"]) ["old"] := by
  constructor
  · exact C6_destination_set_claiming.1 (paramsAt collabPlain 1) [] treePlain
      { extravars := [], destfiles := [["stale.html"]],
        output := { files := [(["stale.html"], "junk", 0)], dirs := [] },
        writes := [], cwd := [] }
      { extravars := [(["content", "sub"], [("roots", Value.vlist [.str "sub"])]),
                      (["content"], [("roots", Value.vlist [.str "."])])],
        destfiles := [["stale.html"]],
        output := { files := [(["stale.html"], "junk", 0),
                              (["sub", "pic.png"], "BYTES", 1),
                              (["a.html"], "hello", 1)],
                    dirs := [["sub"]] },
        writes := [["sub", "pic.png"], ["a.html"]],
        cwd := [] } rfl (by decide)
  · exact (C6_destination_set_claiming.2.2.2.1
      { files := [(["old", "x.html"], "junk", 0)], dirs := [["old"]] } ["old", "x.html"]).1 rfl

/-! ## Output filesystem lemmas for the incremental-build claims -/

theorem fsGet?_some_mem (l : List (FPath × String × Nat)) (p : FPath) (cm : String × Nat)
    (h : fsGet? l p = some cm) : (p, cm) ∈ l := by
  induction l with
  | nil => simp [fsGet?] at h
  | cons e t ih =>
    unfold fsGet? at h
    split at h
    · rename_i he
      cases h
      have : e = (p, e.2) := by
        rw [← he]
      rw [← this]
      exact List.mem_cons_self e t
    · exact List.mem_cons_of_mem e (ih h)

theorem fsGet?_none (l : List (FPath × String × Nat)) (p : FPath)
    (h : fsGet? l p = none) : ∀ cm : String × Nat, (p, cm) ∉ l := by
  induction l with
  | nil => intro cm hx; simp at hx
  | cons e t ih =>
    intro cm hx
    unfold fsGet? at h
    split at h
    · simp at h
    · rename_i he
      rcases List.mem_cons.mp hx with h1 | h1
      · exact he (by rw [← h1])
      · exact ih h cm h1

theorem mem_fsSet (l : List (FPath × String × Nat)) (p : FPath) (cm : String × Nat) :
    ∀ e, e ∈ fsSet l p cm → e ∈ l ∨ e = (p, cm) := by
  induction l with
  | nil =>
    intro e he
    simp [fsSet] at he
    exact Or.inr he
  | cons a t ih =>
    intro e he
    unfold fsSet at he
    split at he
    · rcases List.mem_cons.mp he with h1 | h1
      · exact Or.inr h1
      · exact Or.inl (List.mem_cons_of_mem a h1)
    · rcases List.mem_cons.mp he with h1 | h1
      · exact Or.inl (h1 ▸ List.mem_cons_self a t)
      · rcases ih e h1 with h2 | h2
        · exact Or.inl (List.mem_cons_of_mem a h2)
        · exact Or.inr h2

theorem self_mem_fsSet (l : List (FPath × String × Nat)) (p : FPath) (cm : String × Nat) :
    (p, cm) ∈ fsSet l p cm := by
  induction l with
  | nil => simp [fsSet]
  | cons a t ih =>
    unfold fsSet
    split
    · exact List.mem_cons_self _ _
    · exact List.mem_cons_of_mem a ih

theorem mem_fsSet_of_ne (l : List (FPath × String × Nat)) (p : FPath) (cm : String × Nat)
    (e : FPath × String × Nat) (he : e ∈ l) (hne : e.1 ≠ p) : e ∈ fsSet l p cm := by
  induction l with
  | nil => simp at he
  | cons a t ih =>
    unfold fsSet
    split
    · rename_i ha
      rcases List.mem_cons.mp he with h1 | h1
      · exact absurd (h1 ▸ ha) hne
      · exact List.mem_cons_of_mem _ h1
    · rcases List.mem_cons.mp he with h1 | h1
      · exact h1 ▸ List.mem_cons_self a _
      · exact List.mem_cons_of_mem a (ih h1)

theorem fsSet_paths (l : List (FPath × String × Nat)) (p : FPath) (cm : String × Nat) :
    (fsSet l p cm).map (fun e => e.1) =
      if p ∈ l.map (fun e => e.1) then l.map (fun e => e.1)
      else l.map (fun e => e.1) ++ [p] := by
  induction l with
  | nil => simp [fsSet]
  | cons a t ih =>
    by_cases ha : a.1 = p
    · unfold fsSet
      rw [if_pos ha]
      simp [ha]
    · unfold fsSet
      rw [if_neg ha]
      by_cases hm : p ∈ t.map (fun e => e.1)
      · simp only [List.map_cons, ih, hm, if_true]
        rw [if_pos (List.mem_cons_of_mem a.1 hm)]
      · simp only [List.map_cons, ih, hm, if_false]
        rw [if_neg (by
          intro hc
          rcases List.mem_cons.mp hc with h1 | h1
          · exact ha h1.symm
          · exact hm h1)]
        rfl

theorem fsSet_pathsNodup (l : List (FPath × String × Nat)) (p : FPath) (cm : String × Nat)
    (h : (l.map (fun e => e.1)).Nodup) : ((fsSet l p cm).map (fun e => e.1)).Nodup := by
  rw [fsSet_paths]
  by_cases hm : p ∈ l.map (fun e => e.1)
  · rwa [if_pos hm]
  · rw [if_neg hm]
    exact List.Nodup.append h (List.nodup_singleton p) (List.disjoint_singleton.mpr hm)

theorem outWrite_files (o : OutFS) (p : FPath) (c : String) (n : Nat) :
    (outWrite o p c n).files = fsSet o.files p (c, n) := rfl

theorem pIn_outWrite_mono (o : OutFS) (p q : FPath) (c : String) (n : Nat)
    (h : pIn o q) : pIn (outWrite o p c n) q := by
  rcases h with ⟨cm, hcm⟩
  by_cases hqp : q = p
  · subst hqp
    exact ⟨(c, n), self_mem_fsSet o.files q (c, n)⟩
  · exact ⟨cm, mem_fsSet_of_ne o.files p (c, n) (q, cm) hcm hqp⟩

theorem pIn_outWrite_self (o : OutFS) (p : FPath) (c : String) (n : Nat) :
    pIn (outWrite o p c n) p :=
  ⟨(c, n), self_mem_fsSet o.files p (c, n)⟩

theorem allMtime_outWrite (o : OutFS) (p : FPath) (c : String) (n : Nat)
    (h : allMtime o n) : allMtime (outWrite o p c n) n := by
  intro e he
  rcases mem_fsSet o.files p (c, n) e he with h1 | h1
  · exact h e h1
  · rw [h1]

theorem pathsNodup_outWrite (o : OutFS) (p : FPath) (c : String) (n : Nat)
    (h : pathsNodup o) : pathsNodup (outWrite o p c n) :=
  fsSet_pathsNodup o.files p (c, n) h

theorem pIn_of_outWrite (o : OutFS) (p q : FPath) (c : String) (n : Nat)
    (h : pIn (outWrite o p c n) q) : pIn o q ∨ q = p := by
  rcases h with ⟨cm, hcm⟩
  rcases mem_fsSet o.files p (c, n) (q, cm) hcm with h1 | h1
  · exact Or.inl ⟨cm, h1⟩
  · exact Or.inr (congrArg Prod.fst h1)

theorem outGet?_mtime (o : OutFS) (p : FPath) (cm : String × Nat) (n : Nat)
    (hall : allMtime o n) (h : outGet? o p = some cm) : cm.2 = n :=
  hall (p, cm) (fsGet?_some_mem o.files p cm h)

theorem outGet?_none_not_pIn (o : OutFS) (p : FPath) (h : outGet? o p = none) : ¬pIn o p := by
  rintro ⟨cm, hcm⟩
  exact fsGet?_none o.files p h cm hcm

/-! ## Output invariants of the walker -/

theorem outStep_of_eq (P : Params) (st st2 : WalkSt) (C : List FPath)
    (h : st2.output = st.output) : outStep P st st2 C := by
  refine ⟨?_, ?_, ?_, ?_⟩ <;> rw [h]
  · exact fun p hp => hp
  · exact id
  · exact id
  · exact fun p hp => Or.inl hp

theorem outStep_of_write (P : Params) (st st2 : WalkSt) (C : List FPath) (p0 : FPath)
    (c : String)
    (h : st2.output = outWrite st.output p0 c P.now) (hC : p0 ∈ C) :
    outStep P st st2 C := by
  refine ⟨?_, ?_, ?_, ?_⟩ <;> rw [h]
  · exact fun p hp => pIn_outWrite_mono st.output p0 p c P.now hp
  · exact allMtime_outWrite st.output p0 c P.now
  · exact pathsNodup_outWrite st.output p0 c P.now
  · intro p hp
    rcases pIn_of_outWrite st.output p0 p c P.now hp with h1 | h1
    · exact Or.inl h1
    · exact Or.inr (h1 ▸ hC)

theorem outStep_trans (P : Params) (st stm st2 : WalkSt) (C1 C2 : List FPath)
    (h1 : outStep P st stm C1) (h2 : outStep P stm st2 C2) :
    outStep P st st2 (C1 ++ C2) := by
  refine ⟨fun p hp => h2.1 p (h1.1 p hp), fun ha => h2.2.1 (h1.2.1 ha),
    fun hn => h2.2.2.1 (h1.2.2.1 hn), ?_⟩
  intro p hp
  rcases h2.2.2.2 p hp with hm | hm
  · rcases h1.2.2.2 p hm with hh | hh
    · exact Or.inl hh
    · exact Or.inr (List.mem_append.mpr (Or.inl hh))
  · exact Or.inr (List.mem_append.mpr (Or.inr hm))

theorem outStep_widen (P : Params) (st st2 : WalkSt) (C C2 : List FPath)
    (h : outStep P st st2 C) (hsub : ∀ p ∈ C, p ∈ C2) : outStep P st st2 C2 := by
  refine ⟨h.1, h.2.1, h.2.2.1, ?_⟩
  intro p hp
  rcases h.2.2.2 p hp with h1 | h1
  · exact Or.inl h1
  · exact Or.inr (hsub p h1)

theorem processMd_outStep (P : Params) (root : FPath) (inSub : Bool) (group : String)
    (parent : FPath) (f : CFile) (dfile : FPath) (st st' : WalkSt)
    (h : processMd P root inSub group parent f dfile st = .ok st') :
    outStep P st st' [dfile] := by
  unfold processMd at h
  dsimp only at h
  split at h
  · simp at h
  · split at h
    · cases h
      exact outStep_of_eq P st _ [dfile] rfl
    · split at h
      · cases h
        exact outStep_of_write P st _ [dfile] dfile _ rfl (List.mem_singleton.mpr rfl)
      · cases h
        exact outStep_of_eq P st _ [dfile] rfl

theorem processCopy_outStep (P : Params) (f : CFile) (dfile : FPath) (st st' : WalkSt)
    (h : processCopy P f dfile st = .ok st') : outStep P st st' [dfile] := by
  unfold processCopy at h
  split at h
  · cases h
    exact outStep_of_eq P st _ [dfile] rfl
  · cases h
    exact outStep_of_write P st _ [dfile] dfile _ rfl (List.mem_singleton.mpr rfl)

theorem processFile_outStep (P : Params) (root : FPath) (dirNames : List String)
    (inSub : Bool) (group : String) (parent : FPath) (f : CFile) (st st' : WalkSt)
    (h : processFile P root dirNames inSub group parent f st = .ok st') :
    outStep P st st' (fileClaims P.opts root parent inSub group f) := by
  unfold processFile at h
  unfold fileClaims
  dsimp only at h
  split at h
  · rename_i hhid
    rw [if_pos hhid]
    cases h
    exact outStep_of_eq P st _ [] rfl
  · rename_i hhid
    rw [if_neg hhid]
    generalize destfileOf (destrootFor P.opts root parent group inSub (pySplitext f.name).1)
        (if (pySplitext f.name).2 = ".md" then ".html" else (pySplitext f.name).2) = dfl at h ⊢
    split at h
    · cases h
      exact outStep_of_eq P st _ [dfl] rfl
    · split at h
      · have := processMd_outStep P root inSub group parent f dfl _ st' h
        exact ⟨this.1, this.2.1, this.2.2.1, this.2.2.2⟩
      · have := processCopy_outStep P f dfl _ st' h
        exact ⟨this.1, this.2.1, this.2.2.1, this.2.2.2⟩

theorem processFiles_outStep (P : Params) (root : FPath) (dirNames : List String)
    (inSub : Bool) (group : String) (parent : FPath) :
    ∀ (files : List CFile) (st st' : WalkSt),
      processFiles P root dirNames inSub group parent files st = .ok st' →
      outStep P st st' ((files.map (fileClaims P.opts root parent inSub group)).flatten) := by
  intro files
  induction files with
  | nil =>
    intro st st' h
    cases h
    exact outStep_of_eq P st _ [] rfl
  | cons f fs ih =>
    intro st st' h
    unfold processFiles at h
    split at h
    · simp at h
    · rename_i st2 h2
      have hf := processFile_outStep P root dirNames inSub group parent f st st2 h2
      have hrest := ih st2 st' h
      have := outStep_trans P st st2 st' _ _ hf hrest
      rw [List.map_cons, List.flatten_cons]
      exact this

theorem processDir_outStep (P : Params) (root : FPath) (dirNames : List String)
    (files : List CFile) (st st' : WalkSt)
    (h : processDir P root dirNames files st = .ok st') :
    outStep P st st' (dirClaims P.opts root files) := by
  unfold processDir at h
  unfold dirClaims
  dsimp only at h ⊢
  split at h
  · rename_i hskip
    rw [if_pos hskip]
    cases h
    exact outStep_of_eq P st _ [] rfl
  · rename_i hskip
    rw [if_neg hskip]
    split at h
    · rename_i hins
      rw [if_pos hins]
      have hres := processFiles_outStep P root dirNames _ _ _ files _ st' h
      exact ⟨hres.1, hres.2.1, hres.2.2.1, hres.2.2.2⟩
    · rename_i hins
      rw [if_neg hins]
      have hres := processFiles_outStep P root dirNames _ _ _ files _ st' h
      exact ⟨hres.1, hres.2.1, hres.2.2.1, hres.2.2.2⟩

mutual

theorem processTree_outStep (P : Params) (pfx : FPath) (t : CTree) (st st' : WalkSt)
    (h : processTree P pfx t st = .ok st') :
    outStep P st st' (treeClaims P.opts pfx t) := by
  cases t with
  | node nm subs files =>
    unfold processTree at h
    unfold treeClaims
    split at h
    · simp at h
    · rename_i st2 h2
      have hsub := processSubs_outStep P (pfx ++ [nm]) subs st st2 h2
      have hdir := processDir_outStep P (pfx ++ [nm]) (subs.map CTree.name) files st2 st' h
      exact outStep_trans P st st2 st' _ _ hsub hdir

theorem processSubs_outStep (P : Params) (root : FPath) (ts : List CTree) (st st' : WalkSt)
    (h : processSubs P root ts st = .ok st') :
    outStep P st st' (subsClaims P.opts root ts) := by
  cases ts with
  | nil =>
    cases h
    exact outStep_of_eq P st _ [] rfl
  | cons t rest =>
    unfold processSubs at h
    unfold subsClaims
    split at h
    · simp at h
    · rename_i st2 h2
      have ht := processTree_outStep P root t st st2 h2
      have hrest := processSubs_outStep P root rest st2 st' h
      exact outStep_trans P st st2 st' _ _ ht hrest

end

/-! ## Second-run simulation for aggregation-free trees -/

theorem processMd_extravars (P : Params) (root : FPath) (group : String)
    (parent : FPath) (f : CFile) (dfile : FPath) (st st' : WalkSt)
    (h : processMd P root false group parent f dfile st = .ok st') :
    st'.extravars = st.extravars := by
  unfold processMd at h
  dsimp only at h
  split at h
  · simp at h
  · split at h
    · rename_i hins
      simp at hins
    · split at h
      · cases h
        rfl
      · cases h
        rfl

theorem processFile_extravars (P : Params) (root : FPath) (dirNames : List String)
    (group : String) (parent : FPath) (f : CFile) (st st' : WalkSt)
    (h : processFile P root dirNames false group parent f st = .ok st') :
    st'.extravars = st.extravars := by
  unfold processFile at h
  dsimp only at h
  split at h
  · cases h
    rfl
  · generalize destfileOf (destrootFor P.opts root parent group false (pySplitext f.name).1)
        (if (pySplitext f.name).2 = ".md" then ".html" else (pySplitext f.name).2) = dfl at h
    split at h
    · cases h
      rfl
    · split at h
      · have hmd := processMd_extravars P root group parent f dfl _ st' h
        exact hmd
      · unfold processCopy at h
        split at h
        · cases h
          rfl
        · cases h
          rfl

theorem sim_file (P Q : Params) (O : OutFS) (root : FPath) (dirNames : List String)
    (group : String) (parent : FPath) (f : CFile)
    (hco : Q.collab = P.collab) (hop : Q.opts = P.opts) (hre : Q.resolver = P.resolver)
    (htv : Q.templ_vars = P.templ_vars) (hfu : Q.fuel = P.fuel)
    (hdn : dirNames.any (fun dn => pyStartsWith dn "_") = false)
    (hmt : f.mtime ≤ P.now)
    (hON : allMtime O P.now)
    (st1 st1' st2 : WalkSt)
    (h1 : processFile P root dirNames false group parent f st1 = .ok st1')
    (hev : st2.extravars = st1.extravars)
    (hout : st2.output = O)
    (hcov : ∀ p, pIn st1'.output p → pIn O p) :
    ∃ st2', processFile Q root dirNames false group parent f st2 = .ok st2' ∧
      st2'.output = O ∧ st2'.writes = st2.writes ∧ st2'.extravars = st1'.extravars := by
  have hex := processFile_extravars P root dirNames group parent f st1 st1' h1
  unfold processFile at h1 ⊢
  dsimp only at h1 ⊢
  rw [hop]
  split at h1
  · rename_i hhid
    rw [if_pos hhid]
    cases h1
    exact ⟨st2, rfl, hout, rfl, hev⟩
  · rename_i hhid
    rw [if_neg hhid]
    generalize destfileOf (destrootFor P.opts root parent group false (pySplitext f.name).1)
        (if (pySplitext f.name).2 = ".md" then ".html" else (pySplitext f.name).2) = dfl at h1 ⊢
    rw [hout]
    cases hg2 : outGet? O dfl with
    | some cm2 =>
      have hcm2 : cm2.2 = P.now := outGet?_mtime O dfl cm2 P.now hON hg2
      dsimp only
      rw [hdn, hcm2, if_pos (by simp [hmt])]
      refine ⟨_, rfl, rfl, rfl, ?_⟩
      rw [hex, hev]
    | none =>
      dsimp only
      rw [if_neg Bool.false_ne_true]
      split at h1
      · rename_i hst1
        exfalso
        cases hg1 : outGet? st1.output dfl with
        | none =>
          rw [hg1] at hst1
          dsimp only at hst1
          exact Bool.false_ne_true hst1
        | some cm1 =>
          cases h1
          have hin1 : pIn st1.output dfl := ⟨cm1, fsGet?_some_mem st1.output.files dfl cm1 hg1⟩
          exact outGet?_none_not_pIn O dfl hg2 (hcov dfl hin1)
      · split at h1
        · rename_i hmd
          rw [if_pos hmd]
          unfold processMd at h1 ⊢
          dsimp only at h1 ⊢
          rw [hco, hop, hre, htv, hfu, hev]
          split at h1
          · simp at h1
          · rename_i meta hrender
            rw [if_neg (by simp : ¬(false = true))] at h1
            rw [if_neg (by simp : ¬(false = true))]
            by_cases htr : truthy ((dget? meta "content").getD Value.pynone) = true
            · exfalso
              rw [if_pos htr] at h1
              cases h1
              have hin1 := pIn_outWrite_self st1.output dfl
                (pyStr ((dget? meta "content").getD Value.pynone)) P.now
              exact outGet?_none_not_pIn O dfl hg2 (hcov dfl hin1)
            · rw [if_neg htr] at h1
              rw [if_neg htr]
              cases h1
              exact ⟨_, rfl, rfl, rfl, rfl⟩
        · rename_i hmd
          rw [if_neg hmd]
          exfalso
          unfold processCopy at h1
          split at h1
          · rename_i hst2
            cases h1
            cases hg1 : outGet? st1.output dfl with
            | none =>
              rw [hg1] at hst2
              dsimp only at hst2
              exact Bool.false_ne_true hst2
            | some cm1 =>
              have hin1 : pIn st1.output dfl := ⟨cm1, fsGet?_some_mem st1.output.files dfl cm1 hg1⟩
              exact outGet?_none_not_pIn O dfl hg2 (hcov dfl hin1)
          · cases h1
            have hin1 := pIn_outWrite_self st1.output dfl (String.join f.lines) P.now
            exact outGet?_none_not_pIn O dfl hg2 (hcov dfl hin1)

theorem noAggList_names (ts : List CTree) (h : CTree.noAggList ts = true) :
    (ts.map CTree.name).any (fun dn => pyStartsWith dn "_") = false := by
  induction ts with
  | nil => rfl
  | cons t rest ih =>
    unfold CTree.noAggList at h
    rw [Bool.and_eq_true] at h
    have h2 := ih h.2
    cases t with
    | node nm subs fs =>
      have h1 := h.1
      unfold CTree.noAgg at h1
      rw [Bool.and_eq_true] at h1
      have hnm : pyStartsWith nm "_" = false := by simpa using h1.1
      simp [CTree.name, hnm, h2]

theorem sim_files (P Q : Params) (O : OutFS) (root : FPath) (dirNames : List String)
    (group : String) (parent : FPath)
    (hco : Q.collab = P.collab) (hop : Q.opts = P.opts) (hre : Q.resolver = P.resolver)
    (htv : Q.templ_vars = P.templ_vars) (hfu : Q.fuel = P.fuel)
    (hdn : dirNames.any (fun dn => pyStartsWith dn "_") = false)
    (hON : allMtime O P.now) :
    ∀ (files : List CFile) (st1 st1' st2 : WalkSt),
      files.all (fun f => f.mtime ≤ P.now) = true →
      processFiles P root dirNames false group parent files st1 = .ok st1' →
      st2.extravars = st1.extravars →
      st2.output = O →
      (∀ p, pIn st1'.output p → pIn O p) →
      ∃ st2', processFiles Q root dirNames false group parent files st2 = .ok st2' ∧
        st2'.output = O ∧ st2'.writes = st2.writes ∧ st2'.extravars = st1'.extravars := by
  intro files
  induction files with
  | nil =>
    intro st1 st1' st2 hall h1 hev hout hcov
    cases h1
    exact ⟨st2, rfl, hout, rfl, hev⟩
  | cons f fs ih =>
    intro st1 st1' st2 hall h1 hev hout hcov
    rw [List.all_cons, Bool.and_eq_true] at hall
    unfold processFiles at h1
    split at h1
    · simp at h1
    · rename_i st1m h1f
      have hmono := (processFiles_outStep P root dirNames false group parent fs st1m st1' h1).1
      have hcovf : ∀ p, pIn st1m.output p → pIn O p := fun p hp => hcov p (hmono p hp)
      rcases sim_file P Q O root dirNames group parent f hco hop hre htv hfu hdn
          (of_decide_eq_true hall.1) hON st1 st1m st2 h1f hev hout hcovf with
        ⟨st2m, h2f, hout2, hw2, hev2⟩
      rcases ih st1m st1' st2m hall.2 h1 hev2 hout2 hcov with
        ⟨st2', h2rest, hout', hw', hev'⟩
      refine ⟨st2', ?_, hout', by rw [hw', hw2], hev'⟩
      unfold processFiles
      rw [h2f]
      exact h2rest

theorem sim_dir (P Q : Params) (O : OutFS) (root : FPath) (dirNames : List String)
    (files : List CFile)
    (hco : Q.collab = P.collab) (hop : Q.opts = P.opts) (hre : Q.resolver = P.resolver)
    (htv : Q.templ_vars = P.templ_vars) (hfu : Q.fuel = P.fuel)
    (hdn : dirNames.any (fun dn => pyStartsWith dn "_") = false)
    (hroot : pyStartsWith ((root.getLast?).getD "") "_" = false)
    (hfm : files.all (fun f => f.mtime ≤ P.now) = true)
    (hON : allMtime O P.now)
    (st1 st1' st2 : WalkSt)
    (h1 : processDir P root dirNames files st1 = .ok st1')
    (hev : st2.extravars = st1.extravars)
    (hout : st2.output = O)
    (hcov : ∀ p, pIn st1'.output p → pIn O p) :
    ∃ st2', processDir Q root dirNames files st2 = .ok st2' ∧
      st2'.output = O ∧ st2'.writes = st2.writes ∧ st2'.extravars = st1'.extravars := by
  unfold processDir at h1 ⊢
  dsimp only at h1 ⊢
  rw [hop]
  split at h1
  · rename_i hskip
    rw [if_pos hskip]
    cases h1
    exact ⟨st2, rfl, hout, rfl, hev⟩
  · rename_i hskip
    rw [if_neg hskip]
    rw [hroot] at h1 ⊢
    simp only [if_neg Bool.false_ne_true] at h1 ⊢
    rw [hev]
    rcases sim_files P Q O root dirNames ((root.getLast?).getD "") root.dropLast
        hco hop hre htv hfu hdn hON files _ st1'
        { st2 with
          extravars :=
            evSet st1.extravars root
              (dset (evGet st1.extravars root) "roots"
                (Value.vlist ((rootsStrings (relpathC root [P.opts.content_dir])).map Value.str))) }
        hfm h1 rfl hout hcov with
      ⟨st2', h2, hout', hw', hev'⟩
    exact ⟨st2', h2, hout', hw', hev'⟩

mutual

theorem sim_tree (P Q : Params) (O : OutFS)
    (hco : Q.collab = P.collab) (hop : Q.opts = P.opts) (hre : Q.resolver = P.resolver)
    (htv : Q.templ_vars = P.templ_vars) (hfu : Q.fuel = P.fuel)
    (hON : allMtime O P.now) (pfx : FPath) (t : CTree) (st1 st1' st2 : WalkSt)
    (hna : t.noAgg = true) (hmt : t.mtimesLe P.now = true)
    (h1 : processTree P pfx t st1 = .ok st1')
    (hev : st2.extravars = st1.extravars)
    (hout : st2.output = O)
    (hcov : ∀ p, pIn st1'.output p → pIn O p) :
    ∃ st2', processTree Q pfx t st2 = .ok st2' ∧
      st2'.output = O ∧ st2'.writes = st2.writes ∧ st2'.extravars = st1'.extravars := by
  cases t with
  | node nm subs files =>
    unfold CTree.noAgg at hna
    unfold CTree.mtimesLe at hmt
    rw [Bool.and_eq_true] at hna hmt
    unfold processTree at h1 ⊢
    split at h1
    · simp at h1
    · rename_i st1m h1s
      have hdirmono := (processDir_outStep P (pfx ++ [nm]) (subs.map CTree.name) files st1m st1' h1).1
      have hcovm : ∀ p, pIn st1m.output p → pIn O p := fun p hp => hcov p (hdirmono p hp)
      rcases sim_subs P Q O hco hop hre htv hfu hON (pfx ++ [nm]) subs st1 st1m st2
          hna.2 hmt.2 h1s hev hout hcovm with ⟨st2m, h2s, hout2, hw2, hev2⟩
      have hdn := noAggList_names subs hna.2
      have hroot : pyStartsWith (((pfx ++ [nm]).getLast?).getD "") "_" = false := by
        rw [List.getLast?_concat]
        simpa using hna.1
      rcases sim_dir P Q O (pfx ++ [nm]) (subs.map CTree.name) files hco hop hre htv hfu
          hdn hroot hmt.1 hON st1m st1' st2m h1 hev2 hout2 hcov with
        ⟨st2', h2d, hout', hw', hev'⟩
      refine ⟨st2', ?_, hout', by rw [hw', hw2], hev'⟩
      rw [h2s]
      exact h2d

theorem sim_subs (P Q : Params) (O : OutFS)
    (hco : Q.collab = P.collab) (hop : Q.opts = P.opts) (hre : Q.resolver = P.resolver)
    (htv : Q.templ_vars = P.templ_vars) (hfu : Q.fuel = P.fuel)
    (hON : allMtime O P.now) (root : FPath) (ts : List CTree) (st1 st1' st2 : WalkSt)
    (hna : CTree.noAggList ts = true) (hmt : CTree.mtimesLeList ts P.now = true)
    (h1 : processSubs P root ts st1 = .ok st1')
    (hev : st2.extravars = st1.extravars)
    (hout : st2.output = O)
    (hcov : ∀ p, pIn st1'.output p → pIn O p) :
    ∃ st2', processSubs Q root ts st2 = .ok st2' ∧
      st2'.output = O ∧ st2'.writes = st2.writes ∧ st2'.extravars = st1'.extravars := by
  cases ts with
  | nil =>
    cases h1
    exact ⟨st2, rfl, hout, rfl, hev⟩
  | cons t rest =>
    unfold CTree.noAggList at hna
    unfold CTree.mtimesLeList at hmt
    rw [Bool.and_eq_true] at hna hmt
    unfold processSubs at h1 ⊢
    split at h1
    · simp at h1
    · rename_i st1m h1t
      have hmono := (processSubs_outStep P root rest st1m st1' h1).1
      have hcovm : ∀ p, pIn st1m.output p → pIn O p := fun p hp => hcov p (hmono p hp)
      rcases sim_tree P Q O hco hop hre htv hfu hON root t st1 st1m st2
          hna.1 hmt.1 h1t hev hout hcovm with ⟨st2m, h2t, hout2, hw2, hev2⟩
      rcases sim_subs P Q O hco hop hre htv hfu hON root rest st1m st1' st2m
          hna.2 hmt.2 h1 hev2 hout2 hcov with ⟨st2', h2r, hout', hw', hev'⟩
      refine ⟨st2', ?_, hout', by rw [hw', hw2], hev'⟩
      rw [h2t]
      exact h2r

end

/-- C3 (amended): for a content tree with no aggregation (`_`) directories
whose source mtimes do not exceed the first run's clock, a second build
over the first run's output performs zero writes and leaves the output
tree byte-identical, whatever the second run's clock; the original claim
over every content tree is refuted by `C3_counterexample`. -/
theorem C3_idempotent_rebuild (P Q : Params) (t : CTree) (cwd0 : FPath) (st1 : WalkSt)
    (hco : Q.collab = P.collab) (hop : Q.opts = P.opts) (hre : Q.resolver = P.resolver)
    (htv : Q.templ_vars = P.templ_vars) (hfu : Q.fuel = P.fuel)
    (hna : t.noAgg = true) (hmt : t.mtimesLe P.now = true)
    (h1 : generate_site P t emptyOut cwd0 = .ok st1) :
    ∃ st2, generate_site Q t st1.output cwd0 = .ok st2 ∧
      st2.writes = [] ∧ st2.output = st1.output := by
  unfold generate_site at h1 ⊢
  split at h1
  · simp at h1
  · rename_i stw h1w
    have hdf := processTree_destfiles P [] t _ stw h1w (by exact List.nodup_nil)
    have hdfe : stw.destfiles = [] := by
      rw [hdf.1]
      rfl
    cases h1
    rw [hdfe]
    have hrec : reconcile [] stw.output = stw.output := rfl
    rw [hrec]
    dsimp only
    have hstep := processTree_outStep P [] t _ stw h1w
    have hON : allMtime stw.output P.now :=
      hstep.2.1 (fun e he => absurd he (List.not_mem_nil e))
    have hND : pathsNodup stw.output := hstep.2.2.1 (by exact List.nodup_nil)
    have hcovT : ∀ p, pIn stw.output p → p ∈ treeClaims P.opts [] t := by
      intro p hp
      rcases hstep.2.2.2 p hp with h | h
      · rcases h with ⟨cm, hcm⟩
        exact absurd hcm (List.not_mem_nil _)
      · exact h
    rcases sim_tree P Q stw.output hco hop hre htv hfu hON [] t _ stw
        { extravars := [], destfiles := stw.output.files.map (·.1), output := stw.output,
          writes := [], cwd := cwd0 }
        hna hmt h1w rfl rfl (fun p hp => hp) with ⟨st2w, h2w, hout2, hw2, hev2⟩
    have hdf2 := processTree_destfiles Q [] t
        { extravars := [], destfiles := stw.output.files.map (·.1), output := stw.output,
          writes := [], cwd := cwd0 }
        st2w h2w (by exact hND)
    have hnil : st2w.destfiles = [] := by
      rw [hdf2.1, hop]
      apply List.filter_eq_nil_iff.mpr
      intro d hd
      rcases List.mem_map.mp hd with ⟨e, he, hde⟩
      have hpin : pIn stw.output d := ⟨e.2, by rw [← hde]; exact he⟩
      have hcl := hcovT d hpin
      intro hcontra
      have hc : (treeClaims P.opts [] t).contains d = true := by
        exact List.elem_eq_true_of_mem hcl
      rw [hc] at hcontra
      exact Bool.false_ne_true hcontra
    rw [h2w]
    refine ⟨_, rfl, ?_, ?_⟩
    · dsimp only
      exact hw2
    · dsimp only
      rw [hnil]
      exact hout2

/-- C3 counterexample: with an aggregation directory present the staleness
check is disabled for the whole directory, so a rebuild with no source
changes re-renders and re-writes `a.html` — the second run over the first
run's exact output tree does not perform zero writes. -/
theorem C3_counterexample :
    walkFiles? (generate_site (paramsAt collabPlain 1) treeAgg emptyOut []) =
      some [(["a.html"], "hello", 1)] ∧
    walkDirs? (generate_site (paramsAt collabPlain 1) treeAgg emptyOut []) = some [] ∧
    walkWrites? (generate_site (paramsAt collabPlain 2) treeAgg
      { files := [(["a.html"], "hello", 1)], dirs := [] } []) = some [["a.html"]] ∧
    some [["a.html"]] ≠ some ([] : List FPath) :=
  ⟨rfl, rfl, rfl, by decide⟩

/-- Witness for C3: the two-file tree without aggregation directories,
first built at clock 1 from an empty output, rebuilds at clock 2 with
zero writes and an unchanged output tree. -/
theorem C3_idempotent_rebuild_witness :
    ∃ st1, generate_site (paramsAt collabPlain 1) treePlain emptyOut [] = .ok st1 ∧
      ∃ st2, generate_site (paramsAt collabPlain 2) treePlain st1.output [] = .ok st2 ∧
        st2.writes = [] ∧ st2.output = st1.output :=
  ⟨{ extravars := [(["content", "sub"], [("roots", Value.vlist [Value.str "sub"])]),
                   (["content"], [("roots", Value.vlist [Value.str "."])])],
     destfiles := [],
     output := { files := [(["sub", "pic.png"], "BYTES", 1), (["a.html"], "hello", 1)],
                 dirs := [["sub"]] },
     writes := [["sub", "pic.png"], ["a.html"]],
     cwd := [] },
   rfl,
   C3_idempotent_rebuild (paramsAt collabPlain 1) (paramsAt collabPlain 2) treePlain [] _
     rfl rfl rfl rfl rfl rfl rfl rfl⟩
